import Mathlib

/-!
Shallow embedding of the EduFlow learning-analytics privacy core
(`scripts/utils/privacy_utils.py`) and of its storage layer
(`scripts/utils/mongodb_client.py`).

Python strings are modelled as lists of Unicode code points (`PyStr`),
which — unlike Lean's `String` — can hold lone surrogates, the values on
which `str.encode()` raises `UnicodeEncodeError`.  Python dicts are
modelled as insertion-ordered association lists with unique keys.
Machine-independent arithmetic only; SHA-256 is implemented over byte
lists with explicit reduction modulo 2^32.
-/

/-- A Python string: a list of Unicode code points (each `< 0x110000`;
lone surrogates `0xD800-0xDFFF` are representable, and are exactly the
code points on which UTF-8 encoding fails). -/
abbrev PyStr := List Nat

/-- Embed a Lean string literal as a `PyStr`. -/
def pys (s : String) : PyStr := s.data.map Char.toNat

/-- A Python value as it occurs in the repository's records:
strings, integers, datetimes, and None. -/
inductive Value where
  | str (s : PyStr)
  | int (n : Int)
  | dt (t : Nat)
  | null
deriving DecidableEq, Repr

/-- A Python dict with string keys: an insertion-ordered association list. -/
abbrev Record := List (PyStr × Value)

/-- Dict lookup: value of the first binding of `k`. -/
def Record.lookup : Record → PyStr → Option Value
  | [], _ => none
  | (k, v) :: r, k2 => if k = k2 then some v else Record.lookup r k2

/-- `k in d` for a Python dict. -/
def Record.hasKey (r : Record) (k : PyStr) : Bool := (Record.lookup r k).isSome

/-- Dict lookup with a default (used only under a `hasKey` guard). -/
def Record.lookupD (r : Record) (k : PyStr) : Value := (Record.lookup r k).getD Value.null

/-- Dict assignment `d[k] = v`: replace in place when the key exists,
otherwise append (Python dicts preserve insertion order). -/
def Record.set (r : Record) (k : PyStr) (v : Value) : Record :=
  if r.hasKey k then r.map (fun p => if p.1 = k then (k, v) else p) else r ++ [(k, v)]

/-- Dict deletion `del d[k]`. -/
def Record.del (r : Record) (k : PyStr) : Record := r.filter (fun p => p.1 ≠ k)

/-- `str()` of a value: identity on strings, decimal rendering of
integers, `"None"` for `None`.  (Datetimes never reach `str()` in the
embedded paths.) -/
def valueStr : Value → PyStr
  | .str s => s
  | .int n => pys (toString n)
  | .dt t => pys (toString t)
  | .null => pys "None"

/-! ## Character classes (ASCII scope of the repository's regexes) -/

/-- `\d` — a decimal digit. -/
def isDigitC (c : Nat) : Bool := 48 ≤ c && c ≤ 57

/-- An ASCII upper-case letter. -/
def isUpperC (c : Nat) : Bool := 65 ≤ c && c ≤ 90

/-- An ASCII lower-case letter. -/
def isLowerC (c : Nat) : Bool := 97 ≤ c && c ≤ 122

/-- An ASCII letter or digit. -/
def isAlnumC (c : Nat) : Bool := isDigitC c || isUpperC c || isLowerC c

/-- `\w` — a word character (letter, digit or underscore). -/
def isWordC (c : Nat) : Bool := isAlnumC c || c == 95

/-- The local-part class `[A-Za-z0-9._%+-]` of the email regex. -/
def isLocalC (c : Nat) : Bool :=
  isAlnumC c || c == 46 || c == 95 || c == 37 || c == 43 || c == 45

/-- The domain class `[A-Za-z0-9.-]` of the email regex. -/
def isDomainC (c : Nat) : Bool := isAlnumC c || c == 46 || c == 45

/-- The top-level-domain class `[A-Z|a-z]` of the email regex
(the `|` is a literal member of the class as written in the source). -/
def isTldC (c : Nat) : Bool := isUpperC c || isLowerC c || c == 124

/-- Code point at position `i` (0 when out of range; guarded by bounds). -/
def cpAt (s : PyStr) (i : Nat) : Nat := s.getD i 0

/-- Whether position `i` holds a word character. -/
def wordAt (s : PyStr) (i : Nat) : Bool :=
  match s.get? i with
  | some c => isWordC c
  | none => false

/-- `\b` — a word boundary before position `i`. -/
def bndAt (s : PyStr) (i : Nat) : Bool :=
  (if i = 0 then false else wordAt s (i - 1)) != wordAt s i

/-- The slice `s[i:j]`. -/
def seg (s : PyStr) (i j : Nat) : PyStr := (s.drop i).take (j - i)

/-! ## `re.search` truthiness for the three patterns used by
`_anonymize_record`.  `re.search(p, s)` is truthy iff *some* substring
of `s` matches `p`; existence of any decomposition is therefore a
faithful rendering (greediness only affects which match is found). -/

/-- `re.search` of the email pattern
`\b[A-Za-z0-9._%+-]+@[A-Za-z0-9.-]+\.[A-Z|a-z]{2,}\b`. -/
def emailSearch (s : PyStr) : Bool :=
  (List.range (s.length + 1)).any fun i =>
    bndAt s i && isLocalC (cpAt s i) &&
    ((List.range (s.length + 1)).any fun p =>
      i < p && cpAt s p == 64 && (seg s i p).all isLocalC &&
      ((List.range (s.length + 1)).any fun q =>
        p + 1 < q && cpAt s q == 46 && (seg s (p + 1) q).all isDomainC &&
        ((List.range (s.length + 1)).any fun e =>
          q + 3 ≤ e && e ≤ s.length && (seg s (q + 1) e).all isTldC && bndAt s e)))

/-- The optional-separator alternatives `[-.]?` of the phone pattern. -/
def phoneSeps : List PyStr := [[], [45], [46]]

/-- The optional-separator alternatives `-?` of the SSN pattern. -/
def ssnSeps : List PyStr := [[], [45]]

/-- A run of exactly `len` digits starting at `i`. -/
def digitsRun (s : PyStr) (i len : Nat) : Bool :=
  i + len ≤ s.length && (seg s i (i + len)).all isDigitC

/-- The literal separator `sep` occurs at position `i`. -/
def sepRun (s : PyStr) (i : Nat) (sep : PyStr) : Bool :=
  i + sep.length ≤ s.length && seg s i (i + sep.length) = sep

/-- `re.search` of the phone pattern `\b\d{3}[-.]?\d{3}[-.]?\d{4}\b`. -/
def phoneSearch (s : PyStr) : Bool :=
  (List.range (s.length + 1)).any fun i =>
    phoneSeps.any fun s1 => phoneSeps.any fun s2 =>
      bndAt s i && digitsRun s i 3 &&
      sepRun s (i + 3) s1 && digitsRun s (i + 3 + s1.length) 3 &&
      sepRun s (i + 6 + s1.length) s2 &&
      digitsRun s (i + 6 + s1.length + s2.length) 4 &&
      bndAt s (i + 10 + s1.length + s2.length)

/-- `re.search` of the SSN pattern `\b\d{3}-?\d{2}-?\d{4}\b`. -/
def ssnSearch (s : PyStr) : Bool :=
  (List.range (s.length + 1)).any fun i =>
    ssnSeps.any fun s1 => ssnSeps.any fun s2 =>
      bndAt s i && digitsRun s i 3 &&
      sepRun s (i + 3) s1 && digitsRun s (i + 3 + s1.length) 2 &&
      sepRun s (i + 5 + s1.length) s2 &&
      digitsRun s (i + 5 + s1.length + s2.length) 4 &&
      bndAt s (i + 9 + s1.length + s2.length)

/-! ## The masking helpers of `PrivacyUtils` -/

/-- `PrivacyUtils._mask_email`: split at the first `@`; a local part
longer than two characters keeps its first and last characters with
asterisks between, otherwise it is fully replaced by asterisks; the
domain is kept. -/
def maskEmail (email : PyStr) : PyStr :=
  if email.contains 64 then
    let lo := email.takeWhile (fun c => c ≠ 64)
    let dm := (email.dropWhile (fun c => c ≠ 64)).drop 1
    let ml :=
      if lo.length > 2 then
        lo.take 1 ++ List.replicate (lo.length - 2) 42 ++ lo.drop (lo.length - 1)
      else
        List.replicate lo.length 42
    ml ++ 64 :: dm
  else email

/-- `PrivacyUtils._mask_phone`: keep the last four digits when the
input holds at least ten digits, else the fully masked constant. -/
def maskPhone (phone : PyStr) : PyStr :=
  let ds := phone.filter isDigitC
  if ds.length ≥ 10 then pys "***-***-" ++ ds.drop (ds.length - 4)
  else pys "***-***-****"

/-- `PrivacyUtils._mask_ssn`: the fixed redaction constant. -/
def maskSsn (_ssn : PyStr) : PyStr := pys "***-**-****"

/-- The `if / elif / elif` chain of `_anonymize_record` applied to one
string value: email masking, else phone masking, else SSN masking,
else unchanged. -/
def maskValue (s : PyStr) : PyStr :=
  if emailSearch s then maskEmail s
  else if phoneSearch s then maskPhone s
  else if ssnSearch s then maskSsn s
  else s

/-- `PrivacyUtils._anonymize_record`: rewrite each top-level
string-valued field through the pattern chain; non-string fields are
untouched.  (The body's `try` can never fire: every operation inside is
total.) -/
def anonymizeRecord (r : Record) : Record :=
  r.map fun p =>
    match p.2 with
    | .str s => (p.1, Value.str (maskValue s))
    | _ => p

/-! ## UTF-8 encoding (`str.encode()`), SHA-256, base64 -/

/-- UTF-8 bytes of one code point; `none` exactly on the lone
surrogates `0xD800-0xDFFF` (and out-of-range values), on which Python's
`str.encode()` raises `UnicodeEncodeError`. -/
def utf8Char (c : Nat) : Option (List Nat) :=
  if c < 128 then some [c]
  else if c < 2048 then some [192 + c / 64, 128 + c % 64]
  else if 55296 ≤ c && c ≤ 57343 then none
  else if c < 65536 then some [224 + c / 4096, 128 + c / 64 % 64, 128 + c % 64]
  else if c < 1114112 then
    some [240 + c / 262144, 128 + c / 4096 % 64, 128 + c / 64 % 64, 128 + c % 64]
  else none

/-- `s.encode()`: UTF-8 bytes of the string, failing on lone surrogates. -/
def encodeUtf8 (s : PyStr) : Option (List Nat) :=
  (s.mapM utf8Char).map List.flatten

/-- Reduction modulo 2^32 (SHA-256 works on 32-bit words). -/
def w32 (n : Nat) : Nat := n % 4294967296

/-- Right rotation of a 32-bit word. -/
def rotr (x n : Nat) : Nat := w32 (x / 2 ^ n + x % 2 ^ n * 2 ^ (32 - n))

/-- Logical right shift. -/
def shr (x n : Nat) : Nat := x / 2 ^ n

/-- SHA-256 `Ch(e, f, g)`. -/
def sha2Ch (e f g : Nat) : Nat := (e &&& f) ^^^ ((e ^^^ 4294967295) &&& g)

/-- SHA-256 `Maj(a, b, c)`. -/
def sha2Maj (a b c : Nat) : Nat := (a &&& b) ^^^ (a &&& c) ^^^ (b &&& c)

/-- SHA-256 `Σ0`. -/
def bigSigma0 (x : Nat) : Nat := rotr x 2 ^^^ rotr x 13 ^^^ rotr x 22

/-- SHA-256 `Σ1`. -/
def bigSigma1 (x : Nat) : Nat := rotr x 6 ^^^ rotr x 11 ^^^ rotr x 25

/-- SHA-256 `σ0`. -/
def smallSigma0 (x : Nat) : Nat := rotr x 7 ^^^ rotr x 18 ^^^ shr x 3

/-- SHA-256 `σ1`. -/
def smallSigma1 (x : Nat) : Nat := rotr x 17 ^^^ rotr x 19 ^^^ shr x 10

/-- The 64 SHA-256 round constants. -/
def sha2K : List Nat :=
  [1116352408, 1899447441, 3049323471, 3921009573,
   961987163, 1508970993, 2453635748, 2870763221,
   3624381080, 310598401, 607225278, 1426881987,
   1925078388, 2162078206, 2614888103, 3248222580,
   3835390401, 4022224774, 264347078, 604807628,
   770255983, 1249150122, 1555081692, 1996064986,
   2554220882, 2821834349, 2952996808, 3210313671,
   3336571891, 3584528711, 113926993, 338241895,
   666307205, 773529912, 1294757372, 1396182291,
   1695183700, 1986661051, 2177026350, 2456956037,
   2730485921, 2820302411, 3259730800, 3345764771,
   3516065817, 3600352804, 4094571909, 275423344,
   430227734, 506948616, 659060556, 883997877,
   958139571, 1322822218, 1537002063, 1747873779,
   1955562222, 2024104815, 2227730452, 2361852424,
   2428436474, 2756734187, 3204031479, 3329325298]

/-- Big-endian bytes of `v`, width `n`. -/
def bytesBE : Nat → Nat → List Nat
  | 0, _ => []
  | n + 1, v => bytesBE n (v / 256) ++ [v % 256]

/-- SHA-256 message padding: append `0x80`, zero bytes to 56 mod 64,
then the bit length as 8 big-endian bytes. -/
def sha2Pad (bs : List Nat) : List Nat :=
  bs ++ 128 :: List.replicate ((119 - bs.length % 64) % 64) 0 ++ bytesBE 8 (8 * bs.length)

/-- Split a byte list into 64-byte blocks (structural recursion on a
fuel bound so that the kernel can evaluate it; each step consumes at
least one byte, so `l.length` steps suffice). -/
def chunks64Aux : Nat → List Nat → List (List Nat)
  | 0, _ => []
  | _, [] => []
  | fuel + 1, c :: rest => ((c :: rest).take 64) :: chunks64Aux fuel ((c :: rest).drop 64)

/-- Split a byte list into 64-byte blocks. -/
def chunks64 (l : List Nat) : List (List Nat) := chunks64Aux l.length l

/-- Pack bytes into big-endian 32-bit words. -/
def toWords : List Nat → List Nat
  | b1 :: b2 :: b3 :: b4 :: r => (((b1 * 256 + b2) * 256 + b3) * 256 + b4) :: toWords r
  | _ => []

/-- Extend the 16 message words with `n` further schedule words. -/
def extendW : List Nat → Nat → List Nat
  | ws, 0 => ws
  | ws, n + 1 =>
    extendW
      (ws ++ [w32 (smallSigma1 (ws.getD (ws.length - 2) 0) + ws.getD (ws.length - 7) 0 +
        smallSigma0 (ws.getD (ws.length - 15) 0) + ws.getD (ws.length - 16) 0)]) n

/-- The eight 32-bit words of a SHA-256 state. -/
structure H8 where
  w0 : Nat
  w1 : Nat
  w2 : Nat
  w3 : Nat
  w4 : Nat
  w5 : Nat
  w6 : Nat
  w7 : Nat
deriving DecidableEq, Repr

/-- The SHA-256 initial hash value. -/
def sha2Init : H8 :=
  ⟨1779033703, 3144134277, 1013904242, 2773480762,
   1359893119, 2600822924, 528734635, 1541459225⟩

/-- One SHA-256 compression round. -/
def sha2Round (st : H8) (k w : Nat) : H8 :=
  let t1 := w32 (st.w7 + bigSigma1 st.w4 + sha2Ch st.w4 st.w5 st.w6 + k + w)
  let t2 := w32 (bigSigma0 st.w0 + sha2Maj st.w0 st.w1 st.w2)
  ⟨w32 (t1 + t2), st.w0, st.w1, st.w2, w32 (st.w3 + t1), st.w4, st.w5, st.w6⟩

/-- SHA-256 compression of one 64-byte block. -/
def sha2Compress (st : H8) (block : List Nat) : H8 :=
  let ws := extendW (toWords block) 48
  let f := (List.zip sha2K ws).foldl (fun s kw => sha2Round s kw.1 kw.2) st
  ⟨w32 (st.w0 + f.w0), w32 (st.w1 + f.w1), w32 (st.w2 + f.w2), w32 (st.w3 + f.w3),
   w32 (st.w4 + f.w4), w32 (st.w5 + f.w5), w32 (st.w6 + f.w6), w32 (st.w7 + f.w7)⟩

/-- SHA-256 of a byte list, as the eight state words. -/
def sha256 (bs : List Nat) : H8 :=
  (chunks64 (sha2Pad bs)).foldl sha2Compress sha2Init

/-- Lower-case hex digit. -/
def hexDig (n : Nat) : Nat := if n < 10 then 48 + n else 87 + n

/-- Eight lower-case hex characters of a 32-bit word. -/
def wordHex (w : Nat) : PyStr :=
  [hexDig (w / 16 ^ 7 % 16), hexDig (w / 16 ^ 6 % 16), hexDig (w / 16 ^ 5 % 16),
   hexDig (w / 16 ^ 4 % 16), hexDig (w / 16 ^ 3 % 16), hexDig (w / 16 ^ 2 % 16),
   hexDig (w / 16 % 16), hexDig (w % 16)]

/-- `hashlib.sha256(bs).hexdigest()`: the 64-character lower-case hex
digest. -/
def sha256hex (bs : List Nat) : PyStr :=
  wordHex (sha256 bs).w0 ++ wordHex (sha256 bs).w1 ++ wordHex (sha256 bs).w2 ++
  wordHex (sha256 bs).w3 ++ wordHex (sha256 bs).w4 ++ wordHex (sha256 bs).w5 ++
  wordHex (sha256 bs).w6 ++ wordHex (sha256 bs).w7

/-- A standard base64 alphabet character from a 6-bit value. -/
def b64c (n : Nat) : Nat :=
  if n < 26 then 65 + n else if n < 52 then 71 + n
  else if n < 62 then n - 4 else if n = 62 then 43 else 47

/-- `base64.b64encode(..).decode()` on a byte list. -/
def b64enc : List Nat → PyStr
  | [] => []
  | [a] => [b64c (a / 4), b64c (a % 4 * 16), 61, 61]
  | [a, b] => [b64c (a / 4), b64c (a % 4 * 16 + b / 16), b64c (b % 16 * 4), 61]
  | a :: b :: c :: r =>
    [b64c (a / 4), b64c (a % 4 * 16 + b / 16), b64c (b % 16 * 4 + c / 64), b64c (c % 64)]
      ++ b64enc r

/-! ## `PrivacyUtils` configuration and the anonymization entry points -/

/-- Ambient state of a `PrivacyUtils` instance: the Fernet cipher
(key material plus per-call IV source, modelled as a function on the
plaintext bytes), the current `datetime.utcnow().isoformat()` string,
and the three environment toggles. -/
structure PrivacyEnv where
  cipherEnc : List Nat → List Nat
  nowIso : PyStr
  anonymizationEnabled : Bool
  auditEnabled : Bool

/-- `PrivacyUtils.pii_fields`: field names that are anonymized. -/
def piiFields : List PyStr :=
  [pys "email", pys "login_id", pys "name", pys "sortable_name", pys "short_name",
   pys "phone", pys "address", pys "ssn", pys "student_number", pys "sis_user_id"]

/-- `PrivacyUtils.sensitive_fields`: the subset that is encrypted. -/
def sensitiveFields : List PyStr :=
  [pys "email", pys "phone", pys "address", pys "ssn", pys "student_number"]

/-- `PrivacyUtils._generate_anonymous_id`: `anon_` plus the first 16
hex characters of the SHA-256 digest.  `none` exactly when
`original_id.encode()` fails, in which case the `except` branch's MD5
fallback re-raises on the same `encode()` call. -/
def generateAnonymousId (originalId : PyStr) : Option PyStr :=
  (encodeUtf8 originalId).map fun bs => pys "anon_" ++ (sha256hex bs).take 16

/-- `PrivacyUtils._hash_field`: SHA-256 hex digest of the value.
`none` exactly when `value.encode()` fails (the MD5 fallback then
re-raises on the same `encode()` call). -/
def hashField (value : PyStr) : Option PyStr :=
  (encodeUtf8 value).map sha256hex

/-- `PrivacyUtils._encrypt_field`: base64 of the Fernet ciphertext.
`none` exactly when `value.encode()` fails (the fallback
`_hash_field(value)` then re-raises on the same `encode()` call). -/
def encryptField (env : PrivacyEnv) (value : PyStr) : Option PyStr :=
  (encodeUtf8 value).map fun bs => b64enc (env.cipherEnc bs)

/-- The `for record in records` accumulation loop shared by the three
anonymizers: process records in order, appending each transformed
record; the first record whose transform raises aborts the loop (the
exception propagates out of the surrounding `try`). -/
def anonLoop (f : Record → Option Record) : List Record → Option (List Record)
  | [] => some []
  | r :: rest =>
    match f r with
    | none => none
    | some out => (anonLoop f rest).map (out :: ·)

/-- The `for field in self.pii_fields` body of
`anonymize_student_data`: a present PII field is encrypted (sensitive)
or hashed (otherwise) into its suffixed replacement and the original
key deleted; `none` when the transform raises. -/
def piiStep (env : PrivacyEnv) (acc : Record) (f : PyStr) : Option Record :=
  if acc.hasKey f then
    if sensitiveFields.contains f then
      (encryptField env (valueStr (acc.lookupD f))).map fun ev =>
        (acc.set (f ++ pys "_encrypted") (Value.str ev)).del f
    else
      (hashField (valueStr (acc.lookupD f))).map fun hv =>
        (acc.set (f ++ pys "_hash") (Value.str hv)).del f
  else some acc

/-- The per-student body of the `anonymize_student_data` loop:
free-text masking on a copy, `anonymous_id` from the raw `student_id`,
the PII-field encrypt/hash-and-delete loop, then the provenance
fields.  `none` when any step raises. -/
def anonymizeStudent (env : PrivacyEnv) (student : Record) : Option Record :=
  (if student.hasKey (pys "student_id") then
    (generateAnonymousId (valueStr (student.lookupD (pys "student_id")))).map
      fun aid => (anonymizeRecord student).set (pys "anonymous_id") (Value.str aid)
  else some (anonymizeRecord student)).bind fun a1 =>
  (piiFields.foldlM (piiStep env) a1).map fun a2 : Record =>
  (a2.set (pys "anonymized_at") (Value.str env.nowIso)).set
    (pys "privacy_level") (Value.str (pys "ferpa_compliant"))

/-- `PrivacyUtils.anonymize_student_data`: pass-through when
anonymization is disabled; otherwise the whole batch is processed
inside one `try`, so the first record whose transform raises aborts
the call (`except ... raise`), returning no records. -/
def anonymizeStudentData (env : PrivacyEnv) (students : List Record) :
    Option (List Record) :=
  if env.anonymizationEnabled = false then some students
  else anonLoop (anonymizeStudent env) students

/-- The per-record body of the `anonymize_attendance_data` loop:
free-text masking on a copy, `student_id` replaced by `anonymous_id`,
PII fields deleted, `anonymized_at` attached. -/
def anonymizeAttendanceRec (env : PrivacyEnv) (record : Record) : Option Record :=
  (if record.hasKey (pys "student_id") then
    (generateAnonymousId (valueStr (record.lookupD (pys "student_id")))).map
      fun aid =>
        ((anonymizeRecord record).set (pys "anonymous_id") (Value.str aid)).del
          (pys "student_id")
  else some (anonymizeRecord record)).map fun a1 =>
  (piiFields.foldl (fun acc f => acc.del f) a1).set
    (pys "anonymized_at") (Value.str env.nowIso)

/-- `PrivacyUtils.anonymize_attendance_data`. -/
def anonymizeAttendanceData (env : PrivacyEnv) (records : List Record) :
    Option (List Record) :=
  if env.anonymizationEnabled = false then some records
  else anonLoop (anonymizeAttendanceRec env) records

/-- The per-record body of the `anonymize_library_data` loop (same
shape as the attendance one in the source). -/
def anonymizeLibraryRec (env : PrivacyEnv) (record : Record) : Option Record :=
  (if record.hasKey (pys "student_id") then
    (generateAnonymousId (valueStr (record.lookupD (pys "student_id")))).map
      fun aid =>
        ((anonymizeRecord record).set (pys "anonymous_id") (Value.str aid)).del
          (pys "student_id")
  else some (anonymizeRecord record)).map fun a1 =>
  (piiFields.foldl (fun acc f => acc.del f) a1).set
    (pys "anonymized_at") (Value.str env.nowIso)

/-- `PrivacyUtils.anonymize_library_data`. -/
def anonymizeLibraryData (env : PrivacyEnv) (records : List Record) :
    Option (List Record) :=
  if env.anonymizationEnabled = false then some records
  else anonLoop (anonymizeLibraryRec env) records

/-! ## A heap of dict objects, to express the in-place-mutation
discipline of the anonymizers.  Each Python dict is a heap cell; the
loop body reads the caller's cell, allocates a fresh cell for
`record.copy()`, and every subsequent mutation (`record[k] = v`,
`del record[k]`) targets only that fresh cell, whose final content is
the pure per-record transform. -/

/-- A heap of dict objects; the address of a cell is its index. -/
structure Heap where
  cells : List Record
deriving DecidableEq, Repr

/-- Read the dict at address `a`. -/
def Heap.read (h : Heap) (a : Nat) : Record := h.cells.getD a []

/-- Allocate a fresh cell holding `r`; returns the new heap and the
fresh address. -/
def Heap.alloc (h : Heap) (r : Record) : Heap × Nat :=
  (⟨h.cells ++ [r]⟩, h.cells.length)

/-- Overwrite the cell at address `a`. -/
def Heap.write (h : Heap) (a : Nat) (r : Record) : Heap :=
  ⟨h.cells.set a r⟩

/-- The common loop shape of the three anonymizers, on the heap: for
each input address, read the record, allocate the `.copy()`, apply the
per-record transform writing only to the copy's address, and collect
the copies' addresses.  Fails (raising out of the loop) when the
per-record transform raises. -/
def anonymizeBatchHeap (step : Record → Option Record) :
    Heap → List Nat → Option (Heap × List Nat)
  | h, [] => some (h, [])
  | h, a :: rest =>
    (step (h.read a)).bind fun out =>
      (anonymizeBatchHeap step ((h.alloc (h.read a)).1.write
          (h.alloc (h.read a)).2 out) rest).map
        fun hr => (hr.1, (h.alloc (h.read a)).2 :: hr.2)

/-- `anonymize_student_data` acting on dict objects in the heap. -/
def anonymizeStudentDataHeap (env : PrivacyEnv) (h : Heap) (addrs : List Nat) :
    Option (Heap × List Nat) :=
  anonymizeBatchHeap (anonymizeStudent env) h addrs

/-- `anonymize_attendance_data` acting on dict objects in the heap. -/
def anonymizeAttendanceDataHeap (env : PrivacyEnv) (h : Heap) (addrs : List Nat) :
    Option (Heap × List Nat) :=
  anonymizeBatchHeap (anonymizeAttendanceRec env) h addrs

/-- `anonymize_library_data` acting on dict objects in the heap. -/
def anonymizeLibraryDataHeap (env : PrivacyEnv) (h : Heap) (addrs : List Nat) :
    Option (Heap × List Nat) :=
  anonymizeBatchHeap (anonymizeLibraryRec env) h addrs

/-! ## The storage layer (`MongoDBClient`) -/

/-- The document store: named collections of documents.  Collections
are created implicitly on first access (as in MongoDB). -/
structure DB where
  colls : List (PyStr × List Record)
deriving DecidableEq, Repr

/-- Lookup of a named collection in the association list. -/
def getCollL : List (PyStr × List Record) → PyStr → List Record
  | [], _ => []
  | (k, c) :: r, n => if k = n then c else getCollL r n

/-- Replacement of a named collection in the association list. -/
def setCollL : List (PyStr × List Record) → PyStr → List Record →
    List (PyStr × List Record)
  | [], n, c => [(n, c)]
  | (k, c0) :: r, n, c =>
    if k = n then (k, c) :: r else (k, c0) :: setCollL r n c

/-- The documents of collection `n` (empty when it does not exist). -/
def DB.getColl (db : DB) (n : PyStr) : List Record := getCollL db.colls n

/-- Replace the content of collection `n`. -/
def DB.setColl (db : DB) (n : PyStr) (c : List Record) : DB := ⟨setCollL db.colls n c⟩

/-- The audit-trail collection name. -/
def auditLogs : PyStr := pys "audit_logs"

/-- `MongoDBClient._log_data_operation`: append one audit document
with timestamp, operation, collection and counts. -/
def logDataOperation (db : DB) (now : Nat) (coll : PyStr) (op : PyStr)
    (total ins upd : Nat) : DB :=
  db.setColl auditLogs (db.getColl auditLogs ++
    [[(pys "timestamp", Value.dt now), (pys "operation", Value.str op),
      (pys "collection", Value.str coll), (pys "total_records", Value.int total),
      (pys "inserted_records", Value.int ins), (pys "updated_records", Value.int upd),
      (pys "source", Value.str (pys "mongodb_client"))]])

/-- `collection.replace_one({k: v}, doc, upsert=True)`: replace the
first document whose field `k` equals `v`, else insert `doc`.
Returns the new collection, whether an upsert-insert happened
(`upserted_id`), and whether a replacement modified the matched
document (`modified_count > 0`; MongoDB reports `modified_count = 0`
when the replacement is identical to the stored document). -/
def replaceOneUpsert : List Record → PyStr → Option Value → Record →
    List Record × Bool × Bool
  | [], _, _, doc => ([doc], true, false)
  | d :: rest, k, v, doc =>
    if Record.lookup d k = v then (doc :: rest, false, decide (d ≠ doc))
    else
      let r := replaceOneUpsert rest k v doc
      (d :: r.1, r.2.1, r.2.2)

/-- The per-call result counters of `store_data`. -/
structure StoreCounts where
  inserted : Nat
  updated : Nat
  failed : Nat
deriving DecidableEq, Repr

/-- `MongoDBClient.store_data`: empty input returns zero counts at
once (before any write or audit log).  With an upsert key, each
document carrying the key is `replace_one(..., upsert=True)` keyed on
its value, counted inserted on `upserted_id` and updated on
`modified_count > 0`; documents lacking the key are plain inserts.
Without an upsert key, one bulk insert.  One audit entry is appended
after the writes.  (The model store has no unique indexes and its
writes succeed, so no per-document failure path is taken and
`failed = 0`.) -/
def storeData (db : DB) (now : Nat) (name : PyStr) (data : List Record)
    (upsertKey : Option PyStr) : DB × StoreCounts :=
  if data.isEmpty then (db, ⟨0, 0, 0⟩)
  else
    let coll := db.getColl name
    let res : List Record × Nat × Nat :=
      match upsertKey with
      | some k =>
        data.foldl (fun st doc =>
          if doc.hasKey k then
            let r := replaceOneUpsert st.1 k (Record.lookup doc k) doc
            (r.1, st.2.1 + (if r.2.1 then 1 else 0), st.2.2 + (if r.2.2 then 1 else 0))
          else (st.1 ++ [doc], st.2.1 + 1, st.2.2)) (coll, 0, 0)
      | none => (coll ++ data, data.length, 0)
    let db2 := db.setColl name res.1
    let db3 := logDataOperation db2 now name (pys "store") data.length res.2.1 res.2.2
    (db3, ⟨res.2.1, res.2.2, 0⟩)

/-! ## Retention cleanup.  Time is modelled in microseconds since the
epoch; `datetime.isoformat()` is modelled as a fixed-width monotone
decimal rendering (ISO-8601 timestamps of one common format compare
lexicographically exactly as they compare chronologically, which is
what MongoDB's string `$lt` relies on here). -/

/-- Microseconds per day (`timedelta(days=1)`). -/
def usPerDay : Nat := 86400000000

/-- Fixed-width decimal rendering of a timestamp, most significant
digit first (width `w`; the value is taken modulo `10 ^ w`). -/
def padDec : Nat → Nat → PyStr
  | 0, _ => []
  | w + 1, n => (48 + n / 10 ^ w % 10) :: padDec w n

/-- `datetime.isoformat()` of a timestamp, as a monotone fixed-width
string (26 digits, enough for any microsecond timestamp). -/
def isoformatTs (t : Nat) : PyStr := padDec 26 t

/-- Lexicographic strict order on code-point lists (MongoDB string
comparison). -/
def lexLt : PyStr → PyStr → Bool
  | _, [] => false
  | [], _ :: _ => true
  | a :: as2, b :: bs2 => a < b || (a == b && lexLt as2 bs2)

/-- The `$lt`-on-`collected_at` filter of `cleanup_old_data`: a
document matches when its `collected_at` field is a string below the
cutoff (missing or non-string fields never match a string `$lt`). -/
def oldDoc (cutoff : PyStr) (d : Record) : Bool :=
  match Record.lookup d (pys "collected_at") with
  | some (Value.str s) => lexLt s cutoff
  | _ => false

/-- The fixed collection list of `cleanup_old_data`. -/
def collectionsToClean : List PyStr :=
  [pys "canvas_students", pys "canvas_courses", pys "canvas_enrollments",
   pys "canvas_assignments", pys "canvas_submissions",
   pys "moodle_users", pys "moodle_courses", pys "moodle_enrollments",
   pys "attendance_records", pys "library_checkouts"]

/-- The default of the `days_to_keep` parameter of `cleanup_old_data`
(seven years, for FERPA retention). -/
def cleanupDefaultDays : Nat := 2555

/-- `MongoDBClient.cleanup_old_data`: delete, in each collection of
the fixed list, the documents whose `collected_at` string is below
`(now - timedelta(days=days_to_keep)).isoformat()`; log one audit
entry per collection with a non-zero deletion count; return the total
number of deletions. -/
def cleanupStep (cutoff : PyStr) (now : Nat) (st : DB × Nat) (name : PyStr) :
    DB × Nat :=
  let coll := st.1.getColl name
  let kept := coll.filter (fun d => !oldDoc cutoff d)
  let deleted := coll.length - kept.length
  let db2 := st.1.setColl name kept
  let db3 :=
    if deleted > 0 then logDataOperation db2 now name (pys "cleanup") deleted 0 0
    else db2
  (db3, st.2 + deleted)

/-- `MongoDBClient.cleanup_old_data`, the fold over the fixed
collection list. -/
def cleanupOldData (db : DB) (now : Nat) (daysToKeep : Nat) : DB × Nat :=
  collectionsToClean.foldl
    (cleanupStep (isoformatTs (now - daysToKeep * usPerDay)) now) (db, 0)

/-! ## Basic record lemmas -/

/-- A concrete `PrivacyUtils` state used in concrete evaluations: an
arbitrary cipher, a fixed clock, all toggles on (their environment
defaults). -/
def cEnv : PrivacyEnv := ⟨fun bs => bs, pys "2024-01-01T00:00:00", true, true⟩

theorem lookup_append (r1 r2 : Record) (k : PyStr) :
    Record.lookup (r1 ++ r2) k =
      (Record.lookup r1 k).orElse (fun _ => Record.lookup r2 k) := by
  induction r1 with
  | nil => simp [Record.lookup, Option.orElse]
  | cons p r ih =>
    simp only [List.cons_append, Record.lookup]
    by_cases h : p.1 = k
    · simp [h, Option.orElse]
    · simp [h, ih]

theorem lookup_map_keys (r : Record) (f : PyStr × Value → PyStr × Value)
    (hf : ∀ p, (f p).1 = p.1) (k : PyStr) :
    (Record.lookup (r.map f) k).isSome = (Record.lookup r k).isSome := by
  induction r with
  | nil => simp [Record.lookup]
  | cons p rest ih =>
    simp only [List.map_cons, Record.lookup, hf p]
    by_cases h : p.1 = k
    · simp [h]
    · simp [h, ih]

theorem hasKey_set (r : Record) (k : PyStr) (v : Value) (k2 : PyStr) :
    (r.set k v).hasKey k2 = (r.hasKey k2 || decide (k2 = k)) := by
  unfold Record.set
  cases h : r.hasKey k with
  | true =>
    simp only [h, if_true]
    have hmap := lookup_map_keys r (fun p => if p.1 = k then (k, v) else p)
      (fun p => by by_cases hp : p.1 = k <;> simp [hp]) k2
    unfold Record.hasKey
    rw [hmap]
    by_cases hk : k2 = k
    · subst hk
      simp only [Record.hasKey] at h
      simp [h]
    · simp [hk]
  | false =>
    simp only [Bool.false_eq_true, if_false]
    unfold Record.hasKey
    rw [lookup_append]
    by_cases hk : k2 = k
    · subst hk
      simp only [Record.hasKey] at h
      cases hl : Record.lookup r k2
      · simp [Option.orElse, Record.lookup]
      · rw [hl] at h; simp at h
    · cases hl : Record.lookup r k2 <;>
        simp [Option.orElse, Record.lookup, Ne.symm hk, hk]

theorem lookup_del (r : Record) (k k2 : PyStr) :
    Record.lookup (r.del k) k2 = if k2 = k then none else Record.lookup r k2 := by
  induction r with
  | nil => simp [Record.del, Record.lookup]
  | cons p rest ih =>
    simp only [Record.del, List.filter_cons] at ih ⊢
    by_cases hp : p.1 = k
    · have : (decide (p.1 ≠ k)) = false := by simp [hp]
      rw [this]
      simp only [if_false, Bool.false_eq_true]
      rw [ih]
      by_cases hk : k2 = k
      · simp [hk]
      · have hne : ¬p.1 = k2 := by rw [hp]; exact fun hh => hk hh.symm
        simp [hk, Record.lookup, hne]
    · have : (decide (p.1 ≠ k)) = true := by simp [hp]
      rw [this]
      simp only [if_true]
      by_cases h2 : p.1 = k2
      · have hk : ¬k2 = k := by rw [← h2]; exact hp
        simp [Record.lookup, h2, hk]
      · simp only [Record.lookup, h2, if_false]
        exact ih

theorem hasKey_del (r : Record) (k k2 : PyStr) :
    (r.del k).hasKey k2 = (decide (k2 ≠ k) && r.hasKey k2) := by
  unfold Record.hasKey
  rw [lookup_del]
  by_cases hk : k2 = k <;> simp [hk]

theorem hasKey_anonymizeRecord (r : Record) (k : PyStr) :
    (anonymizeRecord r).hasKey k = r.hasKey k := by
  unfold anonymizeRecord Record.hasKey
  exact lookup_map_keys r _ (fun p => by cases hp : p.2 <;> simp) k

-- dev checks, removed later
example : maskEmail (pys "jo@x.com") = pys "**@x.com" := by decide
example : maskPhone (pys "555-123-4567") = pys "***-***-4567" := by decide
example :
    (anonymizeStudentData cEnv [[(pys "student_id", Value.str (pys "123456"))]]).map
      (List.map fun d => Record.lookup d (pys "student_id")) =
    some [some (Value.str (pys "123456"))] := by decide
example :
    (anonymizeStudentData cEnv
      [[(pys "student_id", Value.int 1001)], [(pys "name", Value.str [55296])]]) = none ∧
    (anonymizeStudentData cEnv [[(pys "student_id", Value.int 1001)]]).isSome = true := by
  decide
set_option maxRecDepth 10000 in
example :
    (generateAnonymousId (pys "1001")).isSome = true ∧
    generateAnonymousId (pys "1001") ≠ generateAnonymousId (pys "1002") := by decide
example : emailSearch (pys "x@y.com 5551234567") = true := by decide
example : phoneSearch (pys "x@y.com 5551234567") = true := by decide
example : maskValue (pys "x@y.com 5551234567") = maskEmail (pys "x@y.com 5551234567") := by
  decide

/-! ## C5 — masking formats -/

theorem takeWhile_no_at (lo dm : PyStr) (h : 64 ∉ lo) :
    (lo ++ 64 :: dm).takeWhile (fun c => c ≠ 64) = lo := by
  induction lo with
  | nil => simp
  | cons c rest ih =>
    have hc : c ≠ 64 := fun hh => h (hh ▸ List.mem_cons_self c rest)
    have hrest : 64 ∉ rest := fun hh => h (List.mem_cons_of_mem c hh)
    simpa [hc] using ih hrest

theorem dropWhile_no_at (lo dm : PyStr) (h : 64 ∉ lo) :
    (lo ++ 64 :: dm).dropWhile (fun c => c ≠ 64) = 64 :: dm := by
  induction lo with
  | nil => simp
  | cons c rest ih =>
    have hc : c ≠ 64 := fun hh => h (hh ▸ List.mem_cons_self c rest)
    have hrest : 64 ∉ rest := fun hh => h (List.mem_cons_of_mem c hh)
    simpa [hc] using ih hrest

theorem maskSsn_const_no_digits : ∀ c ∈ pys "***-**-****", isDigitC c = false := by
  decide

theorem maskEmail_split (lo dm : PyStr) (h : 64 ∉ lo) :
    maskEmail (lo ++ 64 :: dm) =
      (if 2 < lo.length then
        lo.take 1 ++ List.replicate (lo.length - 2) 42 ++ lo.drop (lo.length - 1)
      else List.replicate lo.length 42) ++ 64 :: dm := by
  have hc : (lo ++ 64 :: dm).contains 64 = true := by
    simp [List.contains, List.elem_eq_mem]
  simp only [maskEmail, hc, if_true, takeWhile_no_at lo dm h, dropWhile_no_at lo dm h,
    List.drop_one, List.tail_cons]

/-- C5 (amended): `_mask_email` keeps the domain always, and keeps the
first and last characters of the local part only when the local part
has more than two characters — a local part of at most two characters
is replaced entirely by asterisks; `_mask_phone` keeps exactly the
last four digits when the input has at least ten digits and otherwise
returns the all-masked constant; `_mask_ssn` returns a fixed digitless
constant for every input. -/
theorem mask_formats (lo dm p : PyStr) :
    (64 ∉ lo → 2 < lo.length →
      maskEmail (lo ++ 64 :: dm) =
        lo.take 1 ++ List.replicate (lo.length - 2) 42 ++ lo.drop (lo.length - 1)
          ++ 64 :: dm) ∧
    (64 ∉ lo → lo.length ≤ 2 →
      maskEmail (lo ++ 64 :: dm) = List.replicate lo.length 42 ++ 64 :: dm) ∧
    (10 ≤ (p.filter isDigitC).length →
      maskPhone p = pys "***-***-" ++
        (p.filter isDigitC).drop ((p.filter isDigitC).length - 4)) ∧
    ((p.filter isDigitC).length < 10 → maskPhone p = pys "***-***-****") ∧
    maskSsn p = pys "***-**-****" ∧ (∀ c ∈ maskSsn p, isDigitC c = false) := by
  refine ⟨?_, ?_, ?_, ?_, rfl, fun c hcm => maskSsn_const_no_digits c hcm⟩
  · intro hno hlen
    rw [maskEmail_split lo dm hno, if_pos hlen, List.append_assoc, List.append_assoc]
  · intro hno hlen
    rw [maskEmail_split lo dm hno, if_neg (by omega)]
  · intro h
    unfold maskPhone
    rw [if_pos (by simpa using h)]
  · intro h
    unfold maskPhone
    rw [if_neg (by simpa using Nat.not_le.mpr h)]

/-- C5 counterexample: on the two-character local part of
`"jo@x.com"` the first and last characters of the local part are NOT
preserved — the whole local part is masked. -/
theorem maskEmail_two_char_cx :
    maskEmail (pys "jo@x.com") = pys "**@x.com" ∧
    maskEmail (pys "jo@x.com") ≠ pys "jo@x.com" := by decide

/-- C5 witness: `mask_formats` applied at `"jo@x.com"` and
`"555-123-4567"`. -/
theorem mask_formats_witness :
    (64 ∉ pys "jo") ∧ (pys "jo").length ≤ 2 ∧
    maskEmail (pys "jo" ++ 64 :: pys "x.com") =
      List.replicate (pys "jo").length 42 ++ 64 :: pys "x.com" ∧
    10 ≤ ((pys "555-123-4567").filter isDigitC).length ∧
    maskPhone (pys "555-123-4567") = pys "***-***-" ++
      ((pys "555-123-4567").filter isDigitC).drop
        (((pys "555-123-4567").filter isDigitC).length - 4) :=
  ⟨by decide, by decide,
    (mask_formats (pys "jo") (pys "x.com") (pys "555-123-4567")).2.1
      (by decide) (by decide),
    by decide,
    (mask_formats (pys "jo") (pys "x.com") (pys "555-123-4567")).2.2.1 (by decide)⟩

/-! ## Store lemmas -/

theorem getCollL_setCollL_self (colls : List (PyStr × List Record)) (n : PyStr)
    (c : List Record) : getCollL (setCollL colls n c) n = c := by
  induction colls with
  | nil => simp [setCollL, getCollL]
  | cons p rest ih =>
    obtain ⟨k, c0⟩ := p
    simp only [setCollL]
    by_cases h : k = n
    · simp [getCollL, h]
    · rw [if_neg h]
      simp only [getCollL]
      rw [if_neg h]
      exact ih

theorem getColl_setColl_self (db : DB) (n : PyStr) (c : List Record) :
    (db.setColl n c).getColl n = c :=
  getCollL_setCollL_self db.colls n c

theorem getCollL_setCollL_ne (colls : List (PyStr × List Record)) (n n2 : PyStr)
    (c : List Record) (h : n2 ≠ n) :
    getCollL (setCollL colls n c) n2 = getCollL colls n2 := by
  have h2 : ¬n = n2 := fun hh => h hh.symm
  induction colls with
  | nil => simp [setCollL, getCollL, h2]
  | cons p rest ih =>
    obtain ⟨k, c0⟩ := p
    simp only [setCollL]
    by_cases hp : k = n
    · have hp2 : ¬k = n2 := by rw [hp]; exact h2
      simp [getCollL, hp, h2]
    · rw [if_neg hp]
      simp only [getCollL]
      by_cases hp2 : k = n2
      · simp [hp2]
      · rw [if_neg hp2, if_neg hp2]
        exact ih

theorem getColl_setColl_ne (db : DB) (n n2 : PyStr) (c : List Record) (h : n2 ≠ n) :
    (db.setColl n c).getColl n2 = db.getColl n2 :=
  getCollL_setCollL_ne db.colls n n2 c h

theorem getColl_log_audit (db : DB) (now : Nat) (coll op : PyStr)
    (total ins upd : Nat) :
    (logDataOperation db now coll op total ins upd).getColl auditLogs =
      db.getColl auditLogs ++
        [[(pys "timestamp", Value.dt now), (pys "operation", Value.str op),
          (pys "collection", Value.str coll), (pys "total_records", Value.int total),
          (pys "inserted_records", Value.int ins),
          (pys "updated_records", Value.int upd),
          (pys "source", Value.str (pys "mongodb_client"))]] := by
  unfold logDataOperation
  exact getColl_setColl_self _ _ _

theorem getColl_log_other (db : DB) (now : Nat) (coll op : PyStr)
    (total ins upd : Nat) (n : PyStr) (h : n ≠ auditLogs) :
    (logDataOperation db now coll op total ins upd).getColl n = db.getColl n := by
  unfold logDataOperation
  exact getColl_setColl_ne _ _ _ _ h

/-! ## C6 — audit entry per `store_data` call -/

/-- C6 (amended): every `store_data` call with a NON-EMPTY record
sequence appends exactly one audit entry, in both upsert and
non-upsert mode; a call with the empty sequence returns zero counts
before any write and appends no audit entry. -/
theorem storeData_audit_entry (db : DB) (now : Nat) (n : PyStr)
    (data : List Record) (uk : Option PyStr)
    (hne : data ≠ []) (hn : n ≠ auditLogs) :
    ((storeData db now n data uk).1.getColl auditLogs).length =
      (db.getColl auditLogs).length + 1 := by
  unfold storeData
  rw [if_neg (by simpa using hne)]
  simp only
  rw [getColl_log_audit, List.length_append, getColl_setColl_ne _ _ _ _ (Ne.symm hn)]
  simp

/-- C6 counterexample: a `store_data` call with the empty sequence
appends NO audit entry (the empty-input early return precedes the
audit write), contradicting "every call ... including the empty
sequence". -/
theorem storeData_empty_no_audit_cx :
    ((storeData ⟨[]⟩ 0 (pys "canvas_students") [] none).1.getColl auditLogs).length = 0 ∧
    (storeData ⟨[]⟩ 0 (pys "canvas_students") [] none).2 = ⟨0, 0, 0⟩ ∧
    (storeData ⟨[]⟩ 0 (pys "canvas_students")
      [[(pys "student_id", Value.int 1)]] none).1.getColl auditLogs ≠ [] := by
  decide

/-- C6 witness: `storeData_audit_entry` at a concrete non-empty call. -/
theorem storeData_audit_entry_witness :
    ([[(pys "student_id", Value.int 1)]] : List Record) ≠ [] ∧
    pys "canvas_students" ≠ auditLogs ∧
    ((storeData ⟨[]⟩ 0 (pys "canvas_students")
        [[(pys "student_id", Value.int 1)]] none).1.getColl auditLogs).length =
      ((⟨[]⟩ : DB).getColl auditLogs).length + 1 :=
  ⟨by decide, by decide,
    storeData_audit_entry ⟨[]⟩ 0 (pys "canvas_students")
      [[(pys "student_id", Value.int 1)]] none (by decide) (by decide)⟩

/-! ## C4 — upsert insert/update classification -/

theorem replaceOne_no_match (coll : List Record) (k : PyStr) (v : Option Value)
    (doc : Record)
    (h : coll.find? (fun d2 => decide (Record.lookup d2 k = v)) = none) :
    replaceOneUpsert coll k v doc = (coll ++ [doc], true, false) := by
  induction coll with
  | nil => rfl
  | cons d rest ih =>
    rw [List.find?_cons] at h
    cases hd : decide (Record.lookup d k = v) with
    | true => rw [hd] at h; exact absurd h (by simp)
    | false =>
      rw [hd] at h
      have hne : ¬Record.lookup d k = v := of_decide_eq_false hd
      simp only [replaceOneUpsert, if_neg hne, ih h]
      simp

theorem replaceOne_match_counts (coll : List Record) (k : PyStr) (v : Option Value)
    (doc old : Record)
    (h : coll.find? (fun d2 => decide (Record.lookup d2 k = v)) = some old) :
    (replaceOneUpsert coll k v doc).2 = (false, decide (old ≠ doc)) := by
  induction coll with
  | nil => simp at h
  | cons d rest ih =>
    rw [List.find?_cons] at h
    cases hd : decide (Record.lookup d k = v) with
    | true =>
      rw [hd] at h
      have hol : d = old := by simpa using h
      have heq : Record.lookup d k = v := of_decide_eq_true hd
      subst hol
      simp only [replaceOneUpsert, if_pos heq]
    | false =>
      rw [hd] at h
      have hne : ¬Record.lookup d k = v := of_decide_eq_false hd
      simp only [replaceOneUpsert, if_neg hne]
      exact ih h

/-- C4 (amended): with an upsert key, a stored document is classified
as inserted exactly when no prior document matched its key value, and
as updated exactly when a prior matching document existed AND the
replacement differs from it — rewriting a document identical to the
stored one counts as neither inserted nor updated.  Consequently the
three-record scenario with two distinct key values yields
`inserted=2, updated=1` when the duplicate-key record differs from the
first, and `inserted=2, updated=0` when identical. -/
theorem storeData_upsert_classification (db : DB) (now : Nat) (n : PyStr)
    (d : Record) (k : PyStr) (v : Value) (hv : Record.lookup d k = some v) :
    ((db.getColl n).find? (fun d2 => decide (Record.lookup d2 k = some v)) = none →
      (storeData db now n [d] (some k)).2 = ⟨1, 0, 0⟩) ∧
    (∀ old,
      (db.getColl n).find? (fun d2 => decide (Record.lookup d2 k = some v)) = some old →
      (storeData db now n [d] (some k)).2 = ⟨0, if old = d then 0 else 1, 0⟩) ∧
    (storeData ⟨[]⟩ 0 (pys "students")
      [[(pys "anonymous_id", Value.str (pys "A")), (pys "score", Value.int 1)],
       [(pys "anonymous_id", Value.str (pys "B")), (pys "score", Value.int 2)],
       [(pys "anonymous_id", Value.str (pys "A")), (pys "score", Value.int 3)]]
      (some (pys "anonymous_id"))).2 = ⟨2, 1, 0⟩ := by
  have hk : Record.hasKey d k = true := by unfold Record.hasKey; rw [hv]; rfl
  refine ⟨?_, ?_, by decide⟩
  · intro hnone
    unfold storeData
    rw [if_neg (by simp)]
    simp only [List.foldl_cons, List.foldl_nil, hk, if_true, hv,
      replaceOne_no_match (db.getColl n) k (some v) d hnone]
    simp
  · intro old hsome
    unfold storeData
    rw [if_neg (by simp)]
    simp only [List.foldl_cons, List.foldl_nil, hk, if_true, hv]
    have h2 := replaceOne_match_counts (db.getColl n) k (some v) d old hsome
    have h21 : (replaceOneUpsert (db.getColl n) k (some v) d).2.1 = false := by
      rw [h2]
    have h22 : (replaceOneUpsert (db.getColl n) k (some v) d).2.2 =
        decide (old ≠ d) := by rw [h2]
    rw [h21, h22]
    by_cases he : old = d
    · simp [he]
    · simp [he]

/-- C4 counterexample: storing three records with two distinct key
values into an empty collection, the duplicate being IDENTICAL to the
first record, yields `inserted=2, updated=0` — not the claimed
`inserted=2, updated=1` (an identical rewrite has
`modified_count = 0` and is counted as neither). -/
theorem storeData_identical_upsert_cx :
    (storeData ⟨[]⟩ 0 (pys "students")
      [[(pys "anonymous_id", Value.str (pys "A")), (pys "score", Value.int 1)],
       [(pys "anonymous_id", Value.str (pys "B")), (pys "score", Value.int 2)],
       [(pys "anonymous_id", Value.str (pys "A")), (pys "score", Value.int 1)]]
      (some (pys "anonymous_id"))).2 = ⟨2, 0, 0⟩ ∧
    ((storeData ⟨[]⟩ 0 (pys "students")
      [[(pys "anonymous_id", Value.str (pys "A")), (pys "score", Value.int 1)],
       [(pys "anonymous_id", Value.str (pys "B")), (pys "score", Value.int 2)],
       [(pys "anonymous_id", Value.str (pys "A")), (pys "score", Value.int 1)]]
      (some (pys "anonymous_id"))).1.getColl (pys "students")).length = 2 := by
  decide

/-- C4 witness: `storeData_upsert_classification` at a store holding a
differing document under the same key. -/
theorem storeData_upsert_classification_witness :
    Record.lookup [(pys "anonymous_id", Value.str (pys "A")), (pys "score", Value.int 1)]
      (pys "anonymous_id") = some (Value.str (pys "A")) ∧
    ((DB.mk [(pys "students",
        [[(pys "anonymous_id", Value.str (pys "A")), (pys "score", Value.int 9)]])]).getColl
      (pys "students")).find?
        (fun d2 => decide (Record.lookup d2 (pys "anonymous_id") =
          some (Value.str (pys "A")))) =
      some [(pys "anonymous_id", Value.str (pys "A")), (pys "score", Value.int 9)] ∧
    (storeData
      (DB.mk [(pys "students",
        [[(pys "anonymous_id", Value.str (pys "A")), (pys "score", Value.int 9)]])])
      0 (pys "students")
      [[(pys "anonymous_id", Value.str (pys "A")), (pys "score", Value.int 1)]]
      (some (pys "anonymous_id"))).2 =
      ⟨0,
        if ([(pys "anonymous_id", Value.str (pys "A")), (pys "score", Value.int 9)] :
            Record) =
          [(pys "anonymous_id", Value.str (pys "A")), (pys "score", Value.int 1)]
        then 0 else 1, 0⟩ :=
  ⟨by decide, by decide,
    (storeData_upsert_classification
      (DB.mk [(pys "students",
        [[(pys "anonymous_id", Value.str (pys "A")), (pys "score", Value.int 9)]])])
      0 (pys "students")
      [(pys "anonymous_id", Value.str (pys "A")), (pys "score", Value.int 1)]
      (pys "anonymous_id") (Value.str (pys "A")) (by decide)).2.1
      [(pys "anonymous_id", Value.str (pys "A")), (pys "score", Value.int 9)]
      (by decide)⟩

/-! ## C1 — failure policy of the anonymization batch -/

theorem anonLoop_none_iff (f : Record → Option Record) (l : List Record) :
    anonLoop f l = none ↔ ∃ r ∈ l, f r = none := by
  induction l with
  | nil => simp [anonLoop]
  | cons x xs ih =>
    simp only [anonLoop]
    cases hx : f x with
    | none => simp [hx]
    | some y =>
      cases hxs : anonLoop f xs with
      | none => simp [hxs, ih.mp hxs]
      | some ys =>
        simp only [hxs, Option.map_some]
        constructor
        · intro hfalse; exact absurd hfalse (by simp)
        · intro hex
          rcases hex with ⟨r, hr, hrn⟩
          rcases List.mem_cons.mp hr with h1 | h1
          · rw [h1] at hrn
            exact absurd hrn (by simp [hx])
          · have hnone : anonLoop f xs = none := ih.mpr ⟨r, h1, hrn⟩
            rw [hnone] at hxs
            exact absurd hxs (by simp)

theorem anonLoop_length (f : Record → Option Record) (l : List Record)
    (out : List Record) : anonLoop f l = some out → out.length = l.length := by
  induction l generalizing out with
  | nil => intro h; simp [anonLoop] at h; simp [← h]
  | cons x xs ih =>
    intro h
    simp only [anonLoop] at h
    cases hx : f x with
    | none => rw [hx] at h; simp at h
    | some y =>
      rw [hx] at h
      cases hxs : anonLoop f xs with
      | none => rw [hxs] at h; simp at h
      | some ys =>
        rw [hxs] at h
        have hout : y :: ys = out := by simpa using h
        subst hout
        simp [ih ys hxs]

/-- C1 (amended): when anonymization is enabled, a per-record
transform failure (e.g. an unencodable value) aborts the ENTIRE call
— `anonymize_student_data` fails exactly when some record of the batch
fails, and no record is ever excluded: a successful call returns as
many records as it was given. -/
theorem anonymizeStudentData_aborts_batch (env : PrivacyEnv)
    (students : List Record) (he : env.anonymizationEnabled = true) :
    (anonymizeStudentData env students = none ↔
      ∃ r ∈ students, anonymizeStudent env r = none) ∧
    (∀ out, anonymizeStudentData env students = some out →
      out.length = students.length) := by
  unfold anonymizeStudentData
  simp only [he]
  constructor
  · simpa using anonLoop_none_iff (anonymizeStudent env) students
  · intro out h
    exact anonLoop_length (anonymizeStudent env) students out (by simpa using h)

/-- C1 counterexample: a batch holding one good record and one record
whose PII hash raises (a lone-surrogate `name` value, unencodable)
returns NOTHING — the good record is not returned and the bad record
is not merely excluded, although the good record alone anonymizes
fine. -/
theorem anonymizeStudentData_no_exclusion_cx :
    anonymizeStudentData cEnv
      [[(pys "student_id", Value.int 1001)], [(pys "name", Value.str [55296])]] = none ∧
    (anonymizeStudentData cEnv [[(pys "student_id", Value.int 1001)]]).isSome = true := by
  decide

/-- C1 witness: `anonymizeStudentData_aborts_batch` at a concrete
failing batch. -/
theorem anonymizeStudentData_aborts_batch_witness :
    cEnv.anonymizationEnabled = true ∧
    (anonymizeStudentData cEnv [[(pys "name", Value.str [55296])]] = none ↔
      ∃ r ∈ [[(pys "name", Value.str [55296])]], anonymizeStudent cEnv r = none) :=
  ⟨by decide,
    (anonymizeStudentData_aborts_batch cEnv [[(pys "name", Value.str [55296])]]
      (by decide)).1⟩

/-! ## C10 — free-text masking priority -/

theorem lookup_anonymizeRecord (r : Record) (k : PyStr) (s : PyStr)
    (h : Record.lookup r k = some (Value.str s)) :
    Record.lookup (anonymizeRecord r) k = some (Value.str (maskValue s)) := by
  induction r with
  | nil => simp [Record.lookup] at h
  | cons p rest ih =>
    simp only [Record.lookup] at h
    by_cases hp : p.1 = k
    · rw [if_pos hp] at h
      have hps : p.2 = Value.str s := by injection h
      simp only [anonymizeRecord, List.map_cons, hps, Record.lookup, hp, if_pos]
    · rw [if_neg hp] at h
      have hrest := ih h
      simp only [anonymizeRecord, List.map_cons, Record.lookup] at hrest ⊢
      cases hv : p.2 <;> simp only [hv] <;> rw [if_neg hp] <;> exact hrest

theorem lookup_anonymizeRecord_nonstring (r : Record) (k : PyStr) (v : Value)
    (h : Record.lookup r k = some v) (hv : ∀ s, v ≠ Value.str s) :
    Record.lookup (anonymizeRecord r) k = some v := by
  induction r with
  | nil => simp [Record.lookup] at h
  | cons p rest ih =>
    simp only [Record.lookup] at h
    by_cases hp : p.1 = k
    · rw [if_pos hp] at h
      have hps : p.2 = v := by injection h
      cases hval : v with
      | str s => exact absurd hval (hv s)
      | _ =>
        simp only [anonymizeRecord, List.map_cons, hps, hval, Record.lookup, hp,
          if_pos]
    · rw [if_neg hp] at h
      have hrest := ih h
      simp only [anonymizeRecord, List.map_cons, Record.lookup] at hrest ⊢
      cases hpv : p.2 <;> simp only [hpv] <;> rw [if_neg hp] <;> exact hrest

/-- C10 (confirmed): in the free-text pass each top-level
string-valued field receives exactly the single transformation
selected by the first matching pattern in the order email, phone,
SSN: an email match is email-masked regardless of any phone/SSN
matches, a phone match (and no email match) is phone-masked
regardless of SSN matches, and a field matching no pattern is left
unchanged; non-string fields are untouched. -/
theorem anonymizeRecord_priority (r : Record) (k : PyStr) (s : PyStr)
    (hs : Record.lookup r k = some (Value.str s)) :
    Record.lookup (anonymizeRecord r) k = some (Value.str (maskValue s)) ∧
    (emailSearch s = true → maskValue s = maskEmail s) ∧
    (emailSearch s = false → phoneSearch s = true → maskValue s = maskPhone s) ∧
    (emailSearch s = false → phoneSearch s = false → ssnSearch s = true →
      maskValue s = maskSsn s) ∧
    (emailSearch s = false → phoneSearch s = false → ssnSearch s = false →
      maskValue s = s) := by
  refine ⟨lookup_anonymizeRecord r k s hs, ?_, ?_, ?_, ?_⟩
  · intro he; simp [maskValue, he]
  · intro he hp; simp [maskValue, he, hp]
  · intro he hp hn; simp [maskValue, he, hp, hn]
  · intro he hp hn; simp [maskValue, he, hp, hn]

/-- C10 witness: `anonymizeRecord_priority` on a notes field whose
value matches BOTH the email and the phone pattern — only the email
masking is applied. -/
theorem anonymizeRecord_priority_witness :
    Record.lookup [(pys "notes", Value.str (pys "x@y.com 5551234567"))] (pys "notes") =
      some (Value.str (pys "x@y.com 5551234567")) ∧
    emailSearch (pys "x@y.com 5551234567") = true ∧
    phoneSearch (pys "x@y.com 5551234567") = true ∧
    Record.lookup (anonymizeRecord [(pys "notes", Value.str (pys "x@y.com 5551234567"))])
      (pys "notes") = some (Value.str (maskValue (pys "x@y.com 5551234567"))) ∧
    maskValue (pys "x@y.com 5551234567") = maskEmail (pys "x@y.com 5551234567") :=
  ⟨by decide, by decide, by decide,
    (anonymizeRecord_priority [(pys "notes", Value.str (pys "x@y.com 5551234567"))]
      (pys "notes") (pys "x@y.com 5551234567") (by decide)).1,
    (anonymizeRecord_priority [(pys "notes", Value.str (pys "x@y.com 5551234567"))]
      (pys "notes") (pys "x@y.com 5551234567") (by decide)).2.1 (by decide)⟩

/-! ## C7 — the pseudonymization function -/

theorem wordHex_length (w : Nat) : (wordHex w).length = 8 := by
  simp [wordHex]

theorem sha256hex_length (bs : List Nat) : (sha256hex bs).length = 64 := by
  simp [sha256hex, wordHex]

/-- C7 (confirmed): `_generate_anonymous_id` is a pure deterministic
function of the identifier alone — on an encodable identifier it
returns exactly the constant marker `anon_` followed by the 16-character
prefix of the SHA-256 hex digest (total length 21), equal inputs give
equal outputs by functionality, and identifiers whose truncated digests
differ (all but a negligible-probability collision set) receive
different pseudonyms. -/
theorem generateAnonymousId_format (x y2 : PyStr) (bx by2 : List Nat)
    (hx : encodeUtf8 x = some bx) (hy : encodeUtf8 y2 = some by2) :
    generateAnonymousId x = some (pys "anon_" ++ (sha256hex bx).take 16) ∧
    (∀ out, generateAnonymousId x = some out →
      out.length = 21 ∧ out.take 5 = pys "anon_") ∧
    (x = y2 → generateAnonymousId x = generateAnonymousId y2) ∧
    ((sha256hex bx).take 16 ≠ (sha256hex by2).take 16 →
      generateAnonymousId x ≠ generateAnonymousId y2) := by
  have hgx : generateAnonymousId x = some (pys "anon_" ++ (sha256hex bx).take 16) := by
    unfold generateAnonymousId
    rw [hx]
    rfl
  have hgy : generateAnonymousId y2 = some (pys "anon_" ++ (sha256hex by2).take 16) := by
    unfold generateAnonymousId
    rw [hy]
    rfl
  refine ⟨hgx, ?_, fun he => by rw [he], ?_⟩
  · intro out hout
    rw [hgx] at hout
    have ho : pys "anon_" ++ (sha256hex bx).take 16 = out := by injection hout
    subst ho
    constructor
    · simp [List.length_append, List.length_take, sha256hex_length, pys]
    · rw [List.take_append_of_le_length (by simp [pys])]
      rfl
  · intro hne he
    rw [hgx, hgy] at he
    have h2 : pys "anon_" ++ (sha256hex bx).take 16 =
        pys "anon_" ++ (sha256hex by2).take 16 := by injection he
    exact hne (List.append_cancel_left h2)

set_option maxRecDepth 40000 in
/-- C7 witness: `generateAnonymousId_format` at `"1001"` and
`"1002"`, whose truncated digests differ, so the pseudonyms differ. -/
theorem generateAnonymousId_format_witness :
    encodeUtf8 (pys "1001") = some (pys "1001") ∧
    encodeUtf8 (pys "1002") = some (pys "1002") ∧
    (sha256hex (pys "1001")).take 16 ≠ (sha256hex (pys "1002")).take 16 ∧
    generateAnonymousId (pys "1001") ≠ generateAnonymousId (pys "1002") :=
  ⟨by decide, by decide, by decide,
    (generateAnonymousId_format (pys "1001") (pys "1002") (pys "1001") (pys "1002")
      (by decide) (by decide)).2.2.2 (by decide)⟩

/-! ## C8 — the anonymizers never mutate their input records -/

theorem anonymizeBatchHeap_frame (step : Record → Option Record) (h : Heap)
    (addrs : List Nat) (h2 : Heap) (outs : List Nat)
    (hrun : anonymizeBatchHeap step h addrs = some (h2, outs)) :
    ∀ i, i < h.cells.length → h2.cells[i]? = h.cells[i]? := by
  induction addrs generalizing h h2 outs with
  | nil =>
    simp only [anonymizeBatchHeap, Option.some_inj] at hrun
    cases hrun
    intro i _
    rfl
  | cons a rest ih =>
    simp only [anonymizeBatchHeap] at hrun
    cases hs : step (h.read a) with
    | none => rw [hs] at hrun; simp at hrun
    | some out =>
      rw [hs, Option.some_bind] at hrun
      cases hrec : anonymizeBatchHeap step ((h.alloc (h.read a)).1.write
          (h.alloc (h.read a)).2 out) rest with
      | none => rw [hrec] at hrun; simp at hrun
      | some pr =>
        rw [hrec] at hrun
        have hpr : (pr.1, (h.alloc (h.read a)).2 :: pr.2) = (h2, outs) := by
          simpa using hrun
        have hh2 : pr.1 = h2 := congrArg Prod.fst hpr
        intro i hi
        have hmid := ih _ pr.1 pr.2 (by rw [hrec]) i
          (by simp [Heap.alloc, Heap.write]; omega)
        rw [← hh2, hmid]
        simp only [Heap.alloc, Heap.write]
        rw [List.getElem?_set_ne (by omega)]
        exact List.getElem?_append_left hi

/-- C8 (confirmed): the three anonymize operations never mutate the
caller's records — every mutation targets the freshly allocated
`.copy()` cell, so after a successful call every input heap cell is
unchanged. -/
theorem anonymize_no_input_mutation (env : PrivacyEnv) (h : Heap)
    (addrs : List Nat) (i : Nat) (hi : i < h.cells.length) :
    (∀ res, anonymizeStudentDataHeap env h addrs = some res →
      res.1.cells[i]? = h.cells[i]?) ∧
    (∀ res, anonymizeAttendanceDataHeap env h addrs = some res →
      res.1.cells[i]? = h.cells[i]?) ∧
    (∀ res, anonymizeLibraryDataHeap env h addrs = some res →
      res.1.cells[i]? = h.cells[i]?) :=
  ⟨fun res hr => anonymizeBatchHeap_frame (anonymizeStudent env) h addrs
      res.1 res.2 (by simpa using hr) i hi,
   fun res hr => anonymizeBatchHeap_frame (anonymizeAttendanceRec env) h addrs
      res.1 res.2 (by simpa using hr) i hi,
   fun res hr => anonymizeBatchHeap_frame (anonymizeLibraryRec env) h addrs
      res.1 res.2 (by simpa using hr) i hi⟩

/-- C8 witness: a one-record heap run of each of the three
anonymizers leaves the input cell untouched. -/
theorem anonymize_no_input_mutation_witness :
    (anonymizeStudentDataHeap cEnv ⟨[[(pys "note", Value.int 1)]]⟩ [0] =
      some (⟨[[(pys "note", Value.int 1)],
        [(pys "note", Value.int 1),
         (pys "anonymized_at", Value.str (pys "2024-01-01T00:00:00")),
         (pys "privacy_level", Value.str (pys "ferpa_compliant"))]]⟩, [1])) ∧
    ((⟨[[(pys "note", Value.int 1)],
        [(pys "note", Value.int 1),
         (pys "anonymized_at", Value.str (pys "2024-01-01T00:00:00")),
         (pys "privacy_level", Value.str (pys "ferpa_compliant"))]]⟩ : Heap),
      ([1] : List Nat)).1.cells[0]? =
      (⟨[[(pys "note", Value.int 1)]]⟩ : Heap).cells[0]? ∧
    (anonymizeAttendanceDataHeap cEnv ⟨[[(pys "note", Value.int 1)]]⟩ [0] =
      some (⟨[[(pys "note", Value.int 1)],
        [(pys "note", Value.int 1),
         (pys "anonymized_at", Value.str (pys "2024-01-01T00:00:00"))]]⟩, [1])) ∧
    ((⟨[[(pys "note", Value.int 1)],
        [(pys "note", Value.int 1),
         (pys "anonymized_at", Value.str (pys "2024-01-01T00:00:00"))]]⟩ : Heap),
      ([1] : List Nat)).1.cells[0]? =
      (⟨[[(pys "note", Value.int 1)]]⟩ : Heap).cells[0]? :=
  ⟨by decide,
   (anonymize_no_input_mutation cEnv ⟨[[(pys "note", Value.int 1)]]⟩ [0] 0
      (by decide)).1
     (⟨[[(pys "note", Value.int 1)],
        [(pys "note", Value.int 1),
         (pys "anonymized_at", Value.str (pys "2024-01-01T00:00:00")),
         (pys "privacy_level", Value.str (pys "ferpa_compliant"))]]⟩, [1])
     (by decide),
   by decide,
   (anonymize_no_input_mutation cEnv ⟨[[(pys "note", Value.int 1)]]⟩ [0] 0
      (by decide)).2.1
     (⟨[[(pys "note", Value.int 1)],
        [(pys "note", Value.int 1),
         (pys "anonymized_at", Value.str (pys "2024-01-01T00:00:00"))]]⟩, [1])
     (by decide)⟩

/-! ## Lemmas on the PII-field loop -/

theorem append_ne_self (a b : PyStr) (hb : b ≠ []) : a ++ b ≠ a := by
  intro h
  have := congrArg List.length h
  simp only [List.length_append] at this
  have : b.length = 0 := by omega
  exact hb (List.length_eq_zero.mp this)

theorem piiStep_hasKey_mono (env : PrivacyEnv) (acc acc2 : Record) (f k2 : PyStr)
    (hstep : piiStep env acc f = some acc2) (hne : k2 ≠ f)
    (hk : acc.hasKey k2 = true) : acc2.hasKey k2 = true := by
  unfold piiStep at hstep
  cases hf : acc.hasKey f with
  | false =>
    rw [hf] at hstep
    simp only [Bool.false_eq_true, if_false, Option.some_inj] at hstep
    rw [← hstep]; exact hk
  | true =>
    rw [hf] at hstep
    simp only [if_true] at hstep
    cases hs : sensitiveFields.contains f with
    | true =>
      rw [hs, if_pos rfl] at hstep
      cases henc : encryptField env (valueStr (acc.lookupD f)) with
      | none => rw [henc] at hstep; simp at hstep
      | some ev =>
        rw [henc] at hstep
        have : (acc.set (f ++ pys "_encrypted") (Value.str ev)).del f = acc2 := by
          simpa using hstep
        rw [← this, hasKey_del, hasKey_set, hk]
        simp [hne]
    | false =>
      rw [hs] at hstep
      simp only [Bool.false_eq_true, if_false] at hstep
      cases hh : hashField (valueStr (acc.lookupD f)) with
      | none => rw [hh] at hstep; simp at hstep
      | some hv =>
        rw [hh] at hstep
        have : (acc.set (f ++ pys "_hash") (Value.str hv)).del f = acc2 := by
          simpa using hstep
        rw [← this, hasKey_del, hasKey_set, hk]
        simp [hne]

theorem piiStep_hasKey_absent (env : PrivacyEnv) (acc acc2 : Record) (f k2 : PyStr)
    (hstep : piiStep env acc f = some acc2)
    (h1 : sensitiveFields.contains f = true → k2 ≠ f ++ pys "_encrypted")
    (h2 : sensitiveFields.contains f = false → k2 ≠ f ++ pys "_hash")
    (hk : acc.hasKey k2 = false) : acc2.hasKey k2 = false := by
  unfold piiStep at hstep
  cases hf : acc.hasKey f with
  | false =>
    rw [hf] at hstep
    simp only [Bool.false_eq_true, if_false, Option.some_inj] at hstep
    rw [← hstep]; exact hk
  | true =>
    rw [hf] at hstep
    simp only [if_true] at hstep
    cases hs : sensitiveFields.contains f with
    | true =>
      rw [hs, if_pos rfl] at hstep
      cases henc : encryptField env (valueStr (acc.lookupD f)) with
      | none => rw [henc] at hstep; simp at hstep
      | some ev =>
        rw [henc] at hstep
        have he : (acc.set (f ++ pys "_encrypted") (Value.str ev)).del f = acc2 := by
          simpa using hstep
        rw [← he, hasKey_del, hasKey_set, hk]
        simp [h1 hs]
    | false =>
      rw [hs] at hstep
      simp only [Bool.false_eq_true, if_false] at hstep
      cases hh : hashField (valueStr (acc.lookupD f)) with
      | none => rw [hh] at hstep; simp at hstep
      | some hv =>
        rw [hh] at hstep
        have he : (acc.set (f ++ pys "_hash") (Value.str hv)).del f = acc2 := by
          simpa using hstep
        rw [← he, hasKey_del, hasKey_set, hk]
        simp [h2 hs]

theorem piiStep_deletes (env : PrivacyEnv) (acc acc2 : Record) (f : PyStr)
    (hstep : piiStep env acc f = some acc2) (hwas : acc.hasKey f = true) :
    acc2.hasKey f = false := by
  unfold piiStep at hstep
  rw [hwas] at hstep
  simp only [if_true] at hstep
  cases hs : sensitiveFields.contains f with
  | true =>
    rw [hs, if_pos rfl] at hstep
    cases henc : encryptField env (valueStr (acc.lookupD f)) with
    | none => rw [henc] at hstep; simp at hstep
    | some ev =>
      rw [henc] at hstep
      have he : (acc.set (f ++ pys "_encrypted") (Value.str ev)).del f = acc2 := by
        simpa using hstep
      rw [← he, hasKey_del]
      simp
  | false =>
    rw [hs] at hstep
    simp only [Bool.false_eq_true, if_false] at hstep
    cases hh : hashField (valueStr (acc.lookupD f)) with
    | none => rw [hh] at hstep; simp at hstep
    | some hv =>
      rw [hh] at hstep
      have he : (acc.set (f ++ pys "_hash") (Value.str hv)).del f = acc2 := by
        simpa using hstep
      rw [← he, hasKey_del]
      simp

theorem piiFold_hasKey_mono (env : PrivacyEnv) (fs : List PyStr) (acc out : Record)
    (k2 : PyStr) (hrun : fs.foldlM (piiStep env) acc = some out)
    (hno : ∀ f ∈ fs, k2 ≠ f) (hk : acc.hasKey k2 = true) :
    out.hasKey k2 = true := by
  induction fs generalizing acc with
  | nil =>
    simp only [List.foldlM_nil, Option.pure_def, Option.some_inj] at hrun
    rw [← hrun]; exact hk
  | cons f fs2 ih =>
    rw [List.foldlM_cons] at hrun
    cases hstep : piiStep env acc f with
    | none => rw [hstep] at hrun; simp at hrun
    | some acc2 =>
      rw [hstep] at hrun
      simp only [Option.bind_eq_bind, Option.some_bind] at hrun
      exact ih acc2 hrun (fun g hg => hno g (List.mem_cons_of_mem f hg))
        (piiStep_hasKey_mono env acc acc2 f k2 hstep
          (hno f (List.mem_cons_self f fs2)) hk)

theorem piiFold_hasKey_absent (env : PrivacyEnv) (fs : List PyStr) (acc out : Record)
    (k2 : PyStr) (hrun : fs.foldlM (piiStep env) acc = some out)
    (hsuf : ∀ f ∈ fs, (sensitiveFields.contains f = true → k2 ≠ f ++ pys "_encrypted") ∧
      (sensitiveFields.contains f = false → k2 ≠ f ++ pys "_hash"))
    (hk : acc.hasKey k2 = false) : out.hasKey k2 = false := by
  induction fs generalizing acc with
  | nil =>
    simp only [List.foldlM_nil, Option.pure_def, Option.some_inj] at hrun
    rw [← hrun]; exact hk
  | cons f fs2 ih =>
    rw [List.foldlM_cons] at hrun
    cases hstep : piiStep env acc f with
    | none => rw [hstep] at hrun; simp at hrun
    | some acc2 =>
      rw [hstep] at hrun
      simp only [Option.bind_eq_bind, Option.some_bind] at hrun
      exact ih acc2 hrun (fun g hg => hsuf g (List.mem_cons_of_mem f hg))
        (piiStep_hasKey_absent env acc acc2 f k2 hstep
          (hsuf f (List.mem_cons_self f fs2)).1 (hsuf f (List.mem_cons_self f fs2)).2 hk)

theorem piiFold_deletes (env : PrivacyEnv) (fs : List PyStr) (acc out : Record)
    (k2 : PyStr) (hrun : fs.foldlM (piiStep env) acc = some out)
    (hmem : k2 ∈ fs)
    (hsuf : ∀ f ∈ fs, (sensitiveFields.contains f = true → k2 ≠ f ++ pys "_encrypted") ∧
      (sensitiveFields.contains f = false → k2 ≠ f ++ pys "_hash")) :
    out.hasKey k2 = false := by
  induction fs generalizing acc with
  | nil => simp at hmem
  | cons f fs2 ih =>
    rw [List.foldlM_cons] at hrun
    cases hstep : piiStep env acc f with
    | none => rw [hstep] at hrun; simp at hrun
    | some acc2 =>
      rw [hstep] at hrun
      simp only [Option.bind_eq_bind, Option.some_bind] at hrun
      rcases List.mem_cons.mp hmem with h1 | h1
      · subst h1
        cases hwas : acc.hasKey k2 with
        | true =>
          exact piiFold_hasKey_absent env fs2 acc2 out k2 hrun
            (fun g hg => hsuf g (List.mem_cons_of_mem k2 hg))
            (piiStep_deletes env acc acc2 k2 hstep hwas)
        | false =>
          have hacc2 : acc2 = acc := by
            unfold piiStep at hstep
            rw [hwas] at hstep
            simpa using hstep.symm
          exact piiFold_hasKey_absent env fs2 acc2 out k2 hrun
            (fun g hg => hsuf g (List.mem_cons_of_mem k2 hg)) (hacc2 ▸ hwas)
      · exact ih acc2 hrun h1 (fun g hg => hsuf g (List.mem_cons_of_mem f hg))

theorem piiFold_adds_encrypted (env : PrivacyEnv) (fs : List PyStr)
    (acc out : Record) (f : PyStr) (hrun : fs.foldlM (piiStep env) acc = some out)
    (hmem : f ∈ fs) (hwas : acc.hasKey f = true)
    (hsens : sensitiveFields.contains f = true)
    (hns : ∀ g ∈ fs, f ++ pys "_encrypted" ≠ g) :
    out.hasKey (f ++ pys "_encrypted") = true := by
  induction fs generalizing acc with
  | nil => simp at hmem
  | cons f0 fs2 ih =>
    rw [List.foldlM_cons] at hrun
    cases hstep : piiStep env acc f0 with
    | none => rw [hstep] at hrun; simp at hrun
    | some acc2 =>
      rw [hstep] at hrun
      simp only [Option.bind_eq_bind, Option.some_bind] at hrun
      by_cases h0 : f0 = f
      · subst h0
        have hadded : acc2.hasKey (f0 ++ pys "_encrypted") = true := by
          unfold piiStep at hstep
          rw [hwas, hsens] at hstep
          simp only [if_true, if_pos rfl] at hstep
          cases henc : encryptField env (valueStr (acc.lookupD f0)) with
          | none => rw [henc] at hstep; simp at hstep
          | some ev =>
            rw [henc] at hstep
            have he : (acc.set (f0 ++ pys "_encrypted") (Value.str ev)).del f0 = acc2 := by
              simpa using hstep
            rw [← he, hasKey_del, hasKey_set]
            simp [append_ne_self f0 (pys "_encrypted") (by decide)]
        exact piiFold_hasKey_mono env fs2 acc2 out (f0 ++ pys "_encrypted") hrun
          (fun g hg => hns g (List.mem_cons_of_mem f0 hg)) hadded
      · have hf2 : f ∈ fs2 := by
          rcases List.mem_cons.mp hmem with h1 | h1
          · exact absurd h1.symm h0
          · exact h1
        exact ih acc2 hrun hf2
          (piiStep_hasKey_mono env acc acc2 f0 f hstep (fun hh => h0 hh.symm) hwas)
          (fun g hg => hns g (List.mem_cons_of_mem f0 hg))

theorem piiFold_adds_hash (env : PrivacyEnv) (fs : List PyStr)
    (acc out : Record) (f : PyStr) (hrun : fs.foldlM (piiStep env) acc = some out)
    (hmem : f ∈ fs) (hwas : acc.hasKey f = true)
    (hsens : sensitiveFields.contains f = false)
    (hns : ∀ g ∈ fs, f ++ pys "_hash" ≠ g) :
    out.hasKey (f ++ pys "_hash") = true := by
  induction fs generalizing acc with
  | nil => simp at hmem
  | cons f0 fs2 ih =>
    rw [List.foldlM_cons] at hrun
    cases hstep : piiStep env acc f0 with
    | none => rw [hstep] at hrun; simp at hrun
    | some acc2 =>
      rw [hstep] at hrun
      simp only [Option.bind_eq_bind, Option.some_bind] at hrun
      by_cases h0 : f0 = f
      · subst h0
        have hadded : acc2.hasKey (f0 ++ pys "_hash") = true := by
          unfold piiStep at hstep
          rw [hwas, hsens] at hstep
          simp only [if_true, Bool.false_eq_true, if_false] at hstep
          cases hh : hashField (valueStr (acc.lookupD f0)) with
          | none => rw [hh] at hstep; simp at hstep
          | some hv =>
            rw [hh] at hstep
            have he : (acc.set (f0 ++ pys "_hash") (Value.str hv)).del f0 = acc2 := by
              simpa using hstep
            rw [← he, hasKey_del, hasKey_set]
            simp [append_ne_self f0 (pys "_hash") (by decide)]
        exact piiFold_hasKey_mono env fs2 acc2 out (f0 ++ pys "_hash") hrun
          (fun g hg => hns g (List.mem_cons_of_mem f0 hg)) hadded
      · have hf2 : f ∈ fs2 := by
          rcases List.mem_cons.mp hmem with h1 | h1
          · exact absurd h1.symm h0
          · exact h1
        exact ih acc2 hrun hf2
          (piiStep_hasKey_mono env acc acc2 f0 f hstep (fun hh => h0 hh.symm) hwas)
          (fun g hg => hns g (List.mem_cons_of_mem f0 hg))

/-! ## C2 / C3 — shape of anonymized student records -/

theorem hasKey_set_true (r : Record) (k : PyStr) (v : Value) (k2 : PyStr)
    (h : r.hasKey k2 = true) : (r.set k v).hasKey k2 = true := by
  rw [hasKey_set, h]; rfl

theorem hasKey_set_false (r : Record) (k : PyStr) (v : Value) (k2 : PyStr)
    (h : r.hasKey k2 = false) (hne : k2 ≠ k) : (r.set k v).hasKey k2 = false := by
  rw [hasKey_set, h]
  simp [hne]

theorem anonLoop_single (f : Record → Option Record) (r : Record) (l : List Record)
    (h : anonLoop f [r] = some l) : ∃ out, f r = some out ∧ l = [out] := by
  simp only [anonLoop] at h
  cases hr : f r with
  | none => rw [hr] at h; simp at h
  | some out =>
    rw [hr] at h
    refine ⟨out, rfl, ?_⟩
    simpa using h.symm

theorem anonymizeStudent_decompose (env : PrivacyEnv) (student out : Record)
    (h : anonymizeStudent env student = some out) :
    ∃ a1 a2 : Record,
      ((student.hasKey (pys "student_id") = true ∧ ∃ aid,
          a1 = (anonymizeRecord student).set (pys "anonymous_id") (Value.str aid)) ∨
        (student.hasKey (pys "student_id") = false ∧ a1 = anonymizeRecord student)) ∧
      piiFields.foldlM (piiStep env) a1 = some a2 ∧
      out = (a2.set (pys "anonymized_at") (Value.str env.nowIso)).set
        (pys "privacy_level") (Value.str (pys "ferpa_compliant")) := by
  unfold anonymizeStudent at h
  cases hsid : Record.hasKey student (pys "student_id") with
  | true =>
    rw [if_pos hsid] at h
    cases hg : generateAnonymousId (valueStr (student.lookupD (pys "student_id"))) with
    | none => rw [hg] at h; simp at h
    | some aid =>
      rw [hg] at h
      simp only [Option.map_some', Option.bind_eq_bind, Option.some_bind] at h
      cases hfold : piiFields.foldlM (piiStep env)
          ((anonymizeRecord student).set (pys "anonymous_id") (Value.str aid)) with
      | none => rw [hfold] at h; simp at h
      | some a2 =>
        rw [hfold] at h
        have hout := Option.some_inj.mp (by simpa using h)
        exact ⟨_, a2, Or.inl ⟨rfl, aid, rfl⟩, hfold, hout.symm⟩
  | false =>
    rw [if_neg (by simp [hsid])] at h
    simp only [Option.bind_eq_bind, Option.some_bind] at h
    cases hfold : piiFields.foldlM (piiStep env) (anonymizeRecord student) with
    | none => rw [hfold] at h; simp at h
    | some a2 =>
      rw [hfold] at h
      have hout := Option.some_inj.mp (by simpa using h)
      exact ⟨_, a2, Or.inr ⟨rfl, rfl⟩, hfold, hout.symm⟩

theorem lookup_map_set (r : Record) (k : PyStr) (v : Value) (k2 : PyStr)
    (h : k2 ≠ k) :
    Record.lookup (r.map (fun p => if p.1 = k then (k, v) else p)) k2 =
      Record.lookup r k2 := by
  induction r with
  | nil => rfl
  | cons p rest ih =>
    simp only [List.map_cons]
    by_cases hp : p.1 = k
    · rw [if_pos hp]
      simp only [Record.lookup]
      have hk2 : ¬k = k2 := fun hh => h hh.symm
      have hp2 : ¬p.1 = k2 := by rw [hp]; exact hk2
      rw [if_neg hk2, if_neg hp2, ih]
    · rw [if_neg hp]
      simp only [Record.lookup]
      by_cases hp2 : p.1 = k2
      · rw [if_pos hp2, if_pos hp2]
      · rw [if_neg hp2, if_neg hp2, ih]

theorem lookup_set_ne (r : Record) (k : PyStr) (v : Value) (k2 : PyStr)
    (h : k2 ≠ k) :
    Record.lookup (r.set k v) k2 = Record.lookup r k2 := by
  unfold Record.set
  cases hk : r.hasKey k with
  | true =>
    simp only [if_true]
    exact lookup_map_set r k v k2 h
  | false =>
    simp only [Bool.false_eq_true, if_false]
    rw [lookup_append]
    have hone : Record.lookup [(k, v)] k2 = none := by
      simp only [Record.lookup]
      rw [if_neg (fun hh => h hh.symm)]
    rw [hone]
    cases Record.lookup r k2 <;> rfl

theorem piiStep_lookup_preserved (env : PrivacyEnv) (acc acc2 : Record)
    (f k2 : PyStr) (hstep : piiStep env acc f = some acc2) (h1 : k2 ≠ f)
    (h2 : k2 ≠ f ++ pys "_encrypted") (h3 : k2 ≠ f ++ pys "_hash") :
    Record.lookup acc2 k2 = Record.lookup acc k2 := by
  unfold piiStep at hstep
  cases hf : acc.hasKey f with
  | false =>
    rw [hf] at hstep
    simp only [Bool.false_eq_true, if_false, Option.some_inj] at hstep
    rw [← hstep]
  | true =>
    rw [hf] at hstep
    simp only [if_true] at hstep
    cases hs : sensitiveFields.contains f with
    | true =>
      rw [hs, if_pos rfl] at hstep
      cases henc : encryptField env (valueStr (acc.lookupD f)) with
      | none => rw [henc] at hstep; simp at hstep
      | some ev =>
        rw [henc] at hstep
        have he : (acc.set (f ++ pys "_encrypted") (Value.str ev)).del f = acc2 := by
          simpa using hstep
        rw [← he, lookup_del, if_neg h1, lookup_set_ne _ _ _ _ h2]
    | false =>
      rw [hs] at hstep
      simp only [Bool.false_eq_true, if_false] at hstep
      cases hh : hashField (valueStr (acc.lookupD f)) with
      | none => rw [hh] at hstep; simp at hstep
      | some hv =>
        rw [hh] at hstep
        have he : (acc.set (f ++ pys "_hash") (Value.str hv)).del f = acc2 := by
          simpa using hstep
        rw [← he, lookup_del, if_neg h1, lookup_set_ne _ _ _ _ h3]

theorem piiFold_lookup_preserved (env : PrivacyEnv) (fs : List PyStr)
    (acc out : Record) (k2 : PyStr)
    (hrun : fs.foldlM (piiStep env) acc = some out)
    (hno : ∀ f ∈ fs, k2 ≠ f ∧ k2 ≠ f ++ pys "_encrypted" ∧ k2 ≠ f ++ pys "_hash") :
    Record.lookup out k2 = Record.lookup acc k2 := by
  induction fs generalizing acc with
  | nil =>
    simp only [List.foldlM_nil, Option.pure_def, Option.some_inj] at hrun
    rw [← hrun]
  | cons f fs2 ih =>
    rw [List.foldlM_cons] at hrun
    cases hstep : piiStep env acc f with
    | none => rw [hstep] at hrun; simp at hrun
    | some acc2 =>
      rw [hstep] at hrun
      simp only [Option.bind_eq_bind, Option.some_bind] at hrun
      rw [ih acc2 hrun (fun g hg => hno g (List.mem_cons_of_mem f hg))]
      exact piiStep_lookup_preserved env acc acc2 f k2 hstep
        (hno f (List.mem_cons_self f fs2)).1
        (hno f (List.mem_cons_self f fs2)).2.1
        (hno f (List.mem_cons_self f fs2)).2.2

/-- C2 (amended): when a batch record carries `student_id` and the
call succeeds, the returned record carries an `anonymous_id` pseudonym
— but the `student_id` field is RETAINED under its original name
(`student_id` is not on the PII field list, so the removal loop never
deletes it), holding the free-text-masked form of its value: the value
itself when it is not a string or matches no free-text pattern (e.g.
the raw six-digit `"123456"` or an integer id), the pattern mask
otherwise. -/
theorem anonymizeStudentData_retains_student_id_field (env : PrivacyEnv)
    (r out : Record) (he : env.anonymizationEnabled = true)
    (hrun : anonymizeStudentData env [r] = some [out]) :
    (r.hasKey (pys "student_id") = true →
      out.hasKey (pys "anonymous_id") = true) ∧
    (∀ s, Record.lookup r (pys "student_id") = some (Value.str s) →
      Record.lookup out (pys "student_id") = some (Value.str (maskValue s))) ∧
    (∀ v, Record.lookup r (pys "student_id") = some v →
      (∀ s, v ≠ Value.str s) →
      Record.lookup out (pys "student_id") = some v) := by
  have hstep : anonymizeStudent env r = some out := by
    unfold anonymizeStudentData at hrun
    rw [if_neg (by simp [he])] at hrun
    obtain ⟨out2, ho, hl⟩ := anonLoop_single (anonymizeStudent env) r [out] hrun
    have : out2 = out := by simpa using hl.symm
    rw [← this]; exact ho
  obtain ⟨a1, a2, hst1, hfold, hfin⟩ := anonymizeStudent_decompose env r out hstep
  have hnid : ∀ f ∈ piiFields, pys "anonymous_id" ≠ f := by decide
  have hnsid : ∀ f ∈ piiFields, pys "student_id" ≠ f ∧
      pys "student_id" ≠ f ++ pys "_encrypted" ∧
      pys "student_id" ≠ f ++ pys "_hash" := by decide
  have hsaid : pys "student_id" ≠ pys "anonymous_id" := by decide
  have hsat : pys "student_id" ≠ pys "anonymized_at" := by decide
  have hspl : pys "student_id" ≠ pys "privacy_level" := by decide
  -- the `student_id` binding survives every later stage unchanged
  have hcarry : Record.lookup out (pys "student_id") =
      Record.lookup (anonymizeRecord r) (pys "student_id") := by
    have hfinal : Record.lookup out (pys "student_id") =
        Record.lookup a2 (pys "student_id") := by
      rw [hfin, lookup_set_ne _ _ _ _ hspl, lookup_set_ne _ _ _ _ hsat]
    have hmid := piiFold_lookup_preserved env piiFields a1 a2
      (pys "student_id") hfold hnsid
    rcases hst1 with ⟨_, aid, ha1⟩ | ⟨_, ha1⟩
    · rw [hfinal, hmid, ha1, lookup_set_ne _ _ _ _ hsaid]
    · rw [hfinal, hmid, ha1]
  refine ⟨?_, ?_, ?_⟩
  · intro hsid
    rcases hst1 with ⟨_, aid, ha1⟩ | ⟨hfalse, _⟩
    · have h1aid : a1.hasKey (pys "anonymous_id") = true := by
        rw [ha1, hasKey_set]; simp
      have h2aid := piiFold_hasKey_mono env piiFields a1 a2 (pys "anonymous_id")
        hfold hnid h1aid
      rw [hfin]
      exact hasKey_set_true _ _ _ _ (hasKey_set_true _ _ _ _ h2aid)
    · rw [hsid] at hfalse
      exact absurd hfalse (by simp)
  · intro s hs
    rw [hcarry, lookup_anonymizeRecord r (pys "student_id") s hs]
  · intro v hv hvns
    rw [hcarry, lookup_anonymizeRecord_nonstring r (pys "student_id") v hv hvns]

/-- C2 counterexample: a record whose `student_id` value is the
six-digit string `"123456"` comes back from `anonymize_student_data`
still carrying that raw value under the original `student_id` field
name — the claim that the output "does not carry the raw student_id
value under its original field name" is false. -/
theorem anonymizeStudentData_raw_id_cx :
    (anonymizeStudentData cEnv [[(pys "student_id", Value.str (pys "123456"))]]).map
      (List.map fun d => Record.lookup d (pys "student_id")) =
    some [some (Value.str (pys "123456"))] := by decide

set_option maxRecDepth 100000 in
/-- C2 witness: `anonymizeStudentData_retains_student_id_field` at an
integer-id record (value kept verbatim) and at a nine-digit string id
(field kept, value SSN-masked). -/
theorem anonymizeStudentData_retains_student_id_field_witness :
    cEnv.anonymizationEnabled = true ∧
    anonymizeStudentData cEnv [[(pys "student_id", Value.int 1001)]] =
      some [[(pys "student_id", Value.int 1001),
        (pys "anonymous_id", Value.str (pys "anon_fe675fe7aaee830b")),
        (pys "anonymized_at", Value.str (pys "2024-01-01T00:00:00")),
        (pys "privacy_level", Value.str (pys "ferpa_compliant"))]] ∧
    Record.hasKey [(pys "student_id", Value.int 1001),
      (pys "anonymous_id", Value.str (pys "anon_fe675fe7aaee830b")),
      (pys "anonymized_at", Value.str (pys "2024-01-01T00:00:00")),
      (pys "privacy_level", Value.str (pys "ferpa_compliant"))]
      (pys "anonymous_id") = true ∧
    Record.lookup [(pys "student_id", Value.int 1001),
      (pys "anonymous_id", Value.str (pys "anon_fe675fe7aaee830b")),
      (pys "anonymized_at", Value.str (pys "2024-01-01T00:00:00")),
      (pys "privacy_level", Value.str (pys "ferpa_compliant"))]
      (pys "student_id") = some (Value.int 1001) ∧
    anonymizeStudentData cEnv [[(pys "student_id", Value.str (pys "123456789"))]] =
      some [[(pys "student_id", Value.str (pys "***-**-****")),
        (pys "anonymous_id", Value.str (pys "anon_15e2b0d3c33891eb")),
        (pys "anonymized_at", Value.str (pys "2024-01-01T00:00:00")),
        (pys "privacy_level", Value.str (pys "ferpa_compliant"))]] ∧
    Record.lookup [(pys "student_id", Value.str (pys "***-**-****")),
      (pys "anonymous_id", Value.str (pys "anon_15e2b0d3c33891eb")),
      (pys "anonymized_at", Value.str (pys "2024-01-01T00:00:00")),
      (pys "privacy_level", Value.str (pys "ferpa_compliant"))]
      (pys "student_id") = some (Value.str (maskValue (pys "123456789"))) :=
  ⟨by decide, by decide,
    (anonymizeStudentData_retains_student_id_field cEnv
      [(pys "student_id", Value.int 1001)]
      [(pys "student_id", Value.int 1001),
       (pys "anonymous_id", Value.str (pys "anon_fe675fe7aaee830b")),
       (pys "anonymized_at", Value.str (pys "2024-01-01T00:00:00")),
       (pys "privacy_level", Value.str (pys "ferpa_compliant"))]
      (by decide) (by decide)).1 (by decide),
    (anonymizeStudentData_retains_student_id_field cEnv
      [(pys "student_id", Value.int 1001)]
      [(pys "student_id", Value.int 1001),
       (pys "anonymous_id", Value.str (pys "anon_fe675fe7aaee830b")),
       (pys "anonymized_at", Value.str (pys "2024-01-01T00:00:00")),
       (pys "privacy_level", Value.str (pys "ferpa_compliant"))]
      (by decide) (by decide)).2.2 (Value.int 1001) (by decide)
      (fun s => by simp),
    by decide,
    (anonymizeStudentData_retains_student_id_field cEnv
      [(pys "student_id", Value.str (pys "123456789"))]
      [(pys "student_id", Value.str (pys "***-**-****")),
       (pys "anonymous_id", Value.str (pys "anon_15e2b0d3c33891eb")),
       (pys "anonymized_at", Value.str (pys "2024-01-01T00:00:00")),
       (pys "privacy_level", Value.str (pys "ferpa_compliant"))]
      (by decide) (by decide)).2.1 (pys "123456789") (by decide)⟩

/-- C3 (amended): for every input record and PII-list field present on
it, provided the record does not already carry the derived
`<field>_hash` / `<field>_encrypted` names, a successful
`anonymize_student_data` output lacks the original field name and
carries exactly the one derived field selected by sensitivity —
`<field>_encrypted` (and no `<field>_hash`) for sensitive fields,
`<field>_hash` (and no `<field>_encrypted`) otherwise. -/
theorem anonymizeStudentData_field_replacement (env : PrivacyEnv)
    (r out : Record) (f : PyStr) (he : env.anonymizationEnabled = true)
    (hf : f ∈ piiFields) (hwas : r.hasKey f = true)
    (hnoh : r.hasKey (f ++ pys "_hash") = false)
    (hnoe : r.hasKey (f ++ pys "_encrypted") = false)
    (hrun : anonymizeStudentData env [r] = some [out]) :
    out.hasKey f = false ∧
    (sensitiveFields.contains f = true →
      out.hasKey (f ++ pys "_encrypted") = true ∧
      out.hasKey (f ++ pys "_hash") = false) ∧
    (sensitiveFields.contains f = false →
      out.hasKey (f ++ pys "_hash") = true ∧
      out.hasKey (f ++ pys "_encrypted") = false) := by
  have hstep : anonymizeStudent env r = some out := by
    unfold anonymizeStudentData at hrun
    rw [if_neg (by simp [he])] at hrun
    obtain ⟨out2, ho, hl⟩ := anonLoop_single (anonymizeStudent env) r [out] hrun
    have : out2 = out := by simpa using hl.symm
    rw [← this]; exact ho
  obtain ⟨a1, a2, hst1, hfold, hfin⟩ := anonymizeStudent_decompose env r out hstep
  -- concrete disjointness facts about the configured field names
  have dAid : ∀ g ∈ piiFields, g ++ pys "_hash" ≠ pys "anonymous_id" ∧
      g ++ pys "_encrypted" ≠ pys "anonymous_id" := by decide
  have dPlain : ∀ g ∈ piiFields, ∀ g2 ∈ piiFields,
      g ≠ g2 ++ pys "_encrypted" ∧ g ≠ g2 ++ pys "_hash" := by decide
  have dSuffixPii : ∀ g ∈ piiFields, ∀ g2 ∈ piiFields,
      g ++ pys "_encrypted" ≠ g2 ∧ g ++ pys "_hash" ≠ g2 := by decide
  have dCross : ∀ g ∈ piiFields, ∀ g2 ∈ piiFields,
      g ++ pys "_hash" ≠ g2 ++ pys "_encrypted" ∧
      g ++ pys "_encrypted" ≠ g2 ++ pys "_hash" := by decide
  have dSame : ∀ g ∈ piiFields, ∀ g2 ∈ piiFields,
      (sensitiveFields.contains g = true → sensitiveFields.contains g2 = false →
        g ++ pys "_hash" ≠ g2 ++ pys "_hash") ∧
      (sensitiveFields.contains g = false → sensitiveFields.contains g2 = true →
        g ++ pys "_encrypted" ≠ g2 ++ pys "_encrypted") := by decide
  have dMeta : ∀ g ∈ piiFields, g ≠ pys "anonymized_at" ∧ g ≠ pys "privacy_level" ∧
      g ++ pys "_hash" ≠ pys "anonymized_at" ∧
      g ++ pys "_hash" ≠ pys "privacy_level" ∧
      g ++ pys "_encrypted" ≠ pys "anonymized_at" ∧
      g ++ pys "_encrypted" ≠ pys "privacy_level" := by decide
  -- stage-1 facts
  have h1f : a1.hasKey f = true := by
    rcases hst1 with ⟨_, aid, ha1⟩ | ⟨_, ha1⟩
    · rw [ha1]
      exact hasKey_set_true _ _ _ _ (by rw [hasKey_anonymizeRecord]; exact hwas)
    · rw [ha1, hasKey_anonymizeRecord]; exact hwas
  have h1h : a1.hasKey (f ++ pys "_hash") = false := by
    rcases hst1 with ⟨_, aid, ha1⟩ | ⟨_, ha1⟩
    · rw [ha1]
      exact hasKey_set_false _ _ _ _ (by rw [hasKey_anonymizeRecord]; exact hnoh)
        (dAid f hf).1
    · rw [ha1, hasKey_anonymizeRecord]; exact hnoh
  have h1e : a1.hasKey (f ++ pys "_encrypted") = false := by
    rcases hst1 with ⟨_, aid, ha1⟩ | ⟨_, ha1⟩
    · rw [ha1]
      exact hasKey_set_false _ _ _ _ (by rw [hasKey_anonymizeRecord]; exact hnoe)
        (dAid f hf).2
    · rw [ha1, hasKey_anonymizeRecord]; exact hnoe
  -- fold facts
  have h2f : a2.hasKey f = false :=
    piiFold_deletes env piiFields a1 a2 f hfold hf
      (fun g hg => ⟨fun _ => (dPlain f hf g hg).1, fun _ => (dPlain f hf g hg).2⟩)
  refine ⟨?_, ?_, ?_⟩
  · rw [hfin]
    exact hasKey_set_false _ _ _ _
      (hasKey_set_false _ _ _ _ h2f (dMeta f hf).1) (dMeta f hf).2.1
  · intro hsens
    have hadd : a2.hasKey (f ++ pys "_encrypted") = true :=
      piiFold_adds_encrypted env piiFields a1 a2 f hfold hf h1f hsens
        (fun g hg => (dSuffixPii f hf g hg).1)
    have habs : a2.hasKey (f ++ pys "_hash") = false :=
      piiFold_hasKey_absent env piiFields a1 a2 (f ++ pys "_hash") hfold
        (fun g hg => ⟨fun _ => (dCross f hf g hg).1,
          fun hg2 => (dSame f hf g hg).1 hsens hg2⟩) h1h
    rw [hfin]
    exact ⟨hasKey_set_true _ _ _ _ (hasKey_set_true _ _ _ _ hadd),
      hasKey_set_false _ _ _ _
        (hasKey_set_false _ _ _ _ habs (dMeta f hf).2.2.1) (dMeta f hf).2.2.2.1⟩
  · intro hsens
    have hadd : a2.hasKey (f ++ pys "_hash") = true :=
      piiFold_adds_hash env piiFields a1 a2 f hfold hf h1f hsens
        (fun g hg => (dSuffixPii f hf g hg).2)
    have habs : a2.hasKey (f ++ pys "_encrypted") = false :=
      piiFold_hasKey_absent env piiFields a1 a2 (f ++ pys "_encrypted") hfold
        (fun g hg => ⟨fun hg2 => (dSame f hf g hg).2 hsens hg2,
          fun _ => (dCross f hf g hg).2⟩) h1e
    rw [hfin]
    exact ⟨hasKey_set_true _ _ _ _ (hasKey_set_true _ _ _ _ hadd),
      hasKey_set_false _ _ _ _
        (hasKey_set_false _ _ _ _ habs (dMeta f hf).2.2.2.2.1)
        (dMeta f hf).2.2.2.2.2⟩

/-- C3 counterexample: a record that already carries a
`name_encrypted` field — after anonymization the output contains BOTH
`name_hash` and `name_encrypted`, contradicting "exactly one ...
never both". -/
theorem anonymizeStudentData_both_suffixes_cx :
    (anonymizeStudentData cEnv
      [[(pys "name", Value.str (pys "x")), (pys "name_encrypted", Value.str (pys "y"))]]).map
      (List.map fun d => (d.hasKey (pys "name_hash"), d.hasKey (pys "name_encrypted"),
        d.hasKey (pys "name"))) = some [(true, true, false)] := by decide

set_option maxRecDepth 100000 in
/-- C3 witness: `anonymizeStudentData_field_replacement` on a record
with a non-sensitive PII field `name`. -/
theorem anonymizeStudentData_field_replacement_witness :
    cEnv.anonymizationEnabled = true ∧ pys "name" ∈ piiFields ∧
    sensitiveFields.contains (pys "name") = false ∧
    anonymizeStudentData cEnv [[(pys "name", Value.str (pys "Jo Doe"))]] =
      some [[(pys "name_hash",
        Value.str (pys "7c0a7e89233a8995b28797cef6c18a119c98324f05a9a036040ec5122d86e43b")),
        (pys "anonymized_at", Value.str (pys "2024-01-01T00:00:00")),
        (pys "privacy_level", Value.str (pys "ferpa_compliant"))]] ∧
    Record.hasKey [(pys "name_hash",
        Value.str (pys "7c0a7e89233a8995b28797cef6c18a119c98324f05a9a036040ec5122d86e43b")),
        (pys "anonymized_at", Value.str (pys "2024-01-01T00:00:00")),
        (pys "privacy_level", Value.str (pys "ferpa_compliant"))]
      (pys "name" ++ pys "_hash") = true ∧
    Record.hasKey [(pys "name_hash",
        Value.str (pys "7c0a7e89233a8995b28797cef6c18a119c98324f05a9a036040ec5122d86e43b")),
        (pys "anonymized_at", Value.str (pys "2024-01-01T00:00:00")),
        (pys "privacy_level", Value.str (pys "ferpa_compliant"))]
      (pys "name" ++ pys "_encrypted") = false :=
  ⟨by decide, by decide, by decide, by decide,
    ((anonymizeStudentData_field_replacement cEnv
        [(pys "name", Value.str (pys "Jo Doe"))]
        [(pys "name_hash",
          Value.str (pys "7c0a7e89233a8995b28797cef6c18a119c98324f05a9a036040ec5122d86e43b")),
         (pys "anonymized_at", Value.str (pys "2024-01-01T00:00:00")),
         (pys "privacy_level", Value.str (pys "ferpa_compliant"))]
        (pys "name") (by decide) (by decide) (by decide) (by decide) (by decide)
        (by decide)).2.2 (by decide)).1,
    ((anonymizeStudentData_field_replacement cEnv
        [(pys "name", Value.str (pys "Jo Doe"))]
        [(pys "name_hash",
          Value.str (pys "7c0a7e89233a8995b28797cef6c18a119c98324f05a9a036040ec5122d86e43b")),
         (pys "anonymized_at", Value.str (pys "2024-01-01T00:00:00")),
         (pys "privacy_level", Value.str (pys "ferpa_compliant"))]
        (pys "name") (by decide) (by decide) (by decide) (by decide) (by decide)
        (by decide)).2.2 (by decide)).2⟩

/-! ## C9 — retention cleanup -/

theorem lexLt_padDec (w : Nat) : ∀ m n : Nat,
    lexLt (padDec w m) (padDec w n) = decide (m % 10 ^ w < n % 10 ^ w) := by
  induction w with
  | zero => intro m n; simp [padDec, lexLt, Nat.mod_one]
  | succ w ih =>
    intro m n
    have hx : 0 < 10 ^ w := Nat.pos_pow_of_pos w (by omega)
    have hr : m % 10 ^ w < 10 ^ w := Nat.mod_lt _ hx
    have hs : n % 10 ^ w < 10 ^ w := Nat.mod_lt _ hx
    have hm : m % 10 ^ (w + 1) = m % 10 ^ w + 10 ^ w * (m / 10 ^ w % 10) := by
      rw [pow_succ]; exact Nat.mod_mul
    have hn : n % 10 ^ (w + 1) = n % 10 ^ w + 10 ^ w * (n / 10 ^ w % 10) := by
      rw [pow_succ]; exact Nat.mod_mul
    simp only [padDec, lexLt]
    rw [ih m n]
    rcases Nat.lt_trichotomy (m / 10 ^ w % 10) (n / 10 ^ w % 10) with h | h | h
    · have hlt : m % 10 ^ (w + 1) < n % 10 ^ (w + 1) := by
        rw [hm, hn]
        calc m % 10 ^ w + 10 ^ w * (m / 10 ^ w % 10)
            < 10 ^ w + 10 ^ w * (m / 10 ^ w % 10) := by omega
          _ = 10 ^ w * (m / 10 ^ w % 10 + 1) := by ring
          _ ≤ 10 ^ w * (n / 10 ^ w % 10) := Nat.mul_le_mul_left _ (by omega)
          _ ≤ n % 10 ^ w + 10 ^ w * (n / 10 ^ w % 10) := by omega
      have hhd : (48 + m / 10 ^ w % 10) < (48 + n / 10 ^ w % 10) := by omega
      simp [hhd, hlt]
    · have hiff : m % 10 ^ (w + 1) < n % 10 ^ (w + 1) ↔ m % 10 ^ w < n % 10 ^ w := by
        rw [hm, hn, h]; omega
      have hhd : ¬(48 + m / 10 ^ w % 10 < 48 + n / 10 ^ w % 10) := by omega
      have hbeq : (48 + m / 10 ^ w % 10) = (48 + n / 10 ^ w % 10) := by omega
      by_cases hrec : m % 10 ^ w < n % 10 ^ w
      · simp [hhd, hbeq, hrec, hiff.mpr hrec]
      · have hge : n % 10 ^ (w + 1) ≤ m % 10 ^ (w + 1) := by
          rw [hm, hn, h]; omega
        simp [hhd, hbeq, hrec, hge]
    · have hge : ¬(m % 10 ^ (w + 1) < n % 10 ^ (w + 1)) := by
        rw [hm, hn]
        have : n % 10 ^ w + 10 ^ w * (n / 10 ^ w % 10) <
            m % 10 ^ w + 10 ^ w * (m / 10 ^ w % 10) := by
          calc n % 10 ^ w + 10 ^ w * (n / 10 ^ w % 10)
              < 10 ^ w + 10 ^ w * (n / 10 ^ w % 10) := by omega
            _ = 10 ^ w * (n / 10 ^ w % 10 + 1) := by ring
            _ ≤ 10 ^ w * (m / 10 ^ w % 10) := Nat.mul_le_mul_left _ (by omega)
            _ ≤ m % 10 ^ w + 10 ^ w * (m / 10 ^ w % 10) := by omega
        omega
      have hhd : ¬(48 + m / 10 ^ w % 10 < 48 + n / 10 ^ w % 10) := by omega
      have hne : ¬(48 + m / 10 ^ w % 10 = 48 + n / 10 ^ w % 10) := by omega
      simp [hhd, hne, hge]

theorem cleanupFold (cutoff : PyStr) (now : Nat) (names : List PyStr) :
    ∀ (db : DB) (tot : Nat), names.Nodup → auditLogs ∉ names →
    (names.foldl (cleanupStep cutoff now) (db, tot)).2 =
      tot + (names.map (fun name =>
        ((db.getColl name).filter (oldDoc cutoff)).length)).sum ∧
    (∀ name ∈ names,
      (names.foldl (cleanupStep cutoff now) (db, tot)).1.getColl name =
        (db.getColl name).filter (fun d => !oldDoc cutoff d)) ∧
    (∀ n2, n2 ∉ names → n2 ≠ auditLogs →
      (names.foldl (cleanupStep cutoff now) (db, tot)).1.getColl n2 =
        db.getColl n2) ∧
    ((names.foldl (cleanupStep cutoff now) (db, tot)).1.getColl auditLogs).length =
      (db.getColl auditLogs).length +
      (names.filter (fun name =>
        decide (0 < ((db.getColl name).filter (oldDoc cutoff)).length))).length := by
  induction names with
  | nil =>
    intro db tot _ _
    refine ⟨by simp, by simp, fun n2 _ _ => rfl, by simp⟩
  | cons name rest ih =>
    intro db tot hnd hal
    have hnr : name ∉ rest := (List.nodup_cons.mp hnd).1
    have hndr : rest.Nodup := (List.nodup_cons.mp hnd).2
    have hana : name ≠ auditLogs := fun hh =>
      hal (hh ▸ List.mem_cons_self name rest)
    have halr : auditLogs ∉ rest := fun hh => hal (List.mem_cons_of_mem name hh)
    have hsplit := List.length_eq_length_filter_add
      (l := db.getColl name) (oldDoc cutoff)
    set coll := db.getColl name with hcoll
    set kept := coll.filter (fun d => !oldDoc cutoff d) with hkept
    set deleted := coll.length - kept.length with hdeleted
    have hdel : deleted = (coll.filter (oldDoc cutoff)).length := by
      omega
    set db3 : DB := if deleted > 0 then
        logDataOperation (db.setColl name kept) now name (pys "cleanup") deleted 0 0
      else db.setColl name kept with hdb3
    have hfold1 : (name :: rest).foldl (cleanupStep cutoff now) (db, tot) =
        rest.foldl (cleanupStep cutoff now) (db3, tot + deleted) := by
      rw [List.foldl_cons]
      rfl
    have hg1 : db3.getColl name = kept := by
      rw [hdb3]
      by_cases hdpos : deleted > 0
      · rw [if_pos hdpos, getColl_log_other _ _ _ _ _ _ _ _ hana,
          getColl_setColl_self]
      · rw [if_neg hdpos, getColl_setColl_self]
    have hg2 : ∀ n2, n2 ≠ name → n2 ≠ auditLogs → db3.getColl n2 = db.getColl n2 := by
      intro n2 h1 h2
      rw [hdb3]
      by_cases hdpos : deleted > 0
      · rw [if_pos hdpos, getColl_log_other _ _ _ _ _ _ _ _ h2,
          getColl_setColl_ne _ _ _ _ h1]
      · rw [if_neg hdpos, getColl_setColl_ne _ _ _ _ h1]
    have hg3 : (db3.getColl auditLogs).length =
        (db.getColl auditLogs).length + (if deleted > 0 then 1 else 0) := by
      rw [hdb3]
      by_cases hdpos : deleted > 0
      · rw [if_pos hdpos, if_pos hdpos, getColl_log_audit, List.length_append,
          getColl_setColl_ne _ _ _ _ (Ne.symm hana)]
        rfl
      · rw [if_neg hdpos, if_neg hdpos, getColl_setColl_ne _ _ _ _ (Ne.symm hana)]
        omega
    obtain ⟨ih1, ih2, ih3, ih4⟩ := ih db3 (tot + deleted) hndr halr
    have hrestmap : rest.map (fun n2 =>
        ((db3.getColl n2).filter (oldDoc cutoff)).length) =
        rest.map (fun n2 => ((db.getColl n2).filter (oldDoc cutoff)).length) :=
      List.map_congr_left fun n2 hn2 => by
        rw [hg2 n2 (fun hh => hnr (hh ▸ hn2)) (fun hh => halr (hh ▸ hn2))]
    refine ⟨?_, ?_, ?_, ?_⟩
    · rw [hfold1, ih1, hrestmap, List.map_cons, List.sum_cons]
      have hdel2 : deleted = ((db.getColl name).filter (oldDoc cutoff)).length := by
        rw [hdel, hcoll]
      omega
    · intro n2 hn2
      rcases List.mem_cons.mp hn2 with h1 | h1
      · subst h1
        rw [hfold1, ih3 n2 hnr hana, hg1, hkept]
      · rw [hfold1, ih2 n2 h1,
          hg2 n2 (fun hh => hnr (hh ▸ h1)) (fun hh => halr (hh ▸ h1))]
    · intro n2 hn2 h2
      have hn2n : n2 ≠ name := fun hh => hn2 (hh ▸ List.mem_cons_self name rest)
      have hn2r : n2 ∉ rest := fun hh => hn2 (List.mem_cons_of_mem name hh)
      rw [hfold1, ih3 n2 hn2r h2, hg2 n2 hn2n h2]
    · have hrestfilter : rest.filter (fun n2 =>
          decide (0 < ((db3.getColl n2).filter (oldDoc cutoff)).length)) =
          rest.filter (fun n2 =>
            decide (0 < ((db.getColl n2).filter (oldDoc cutoff)).length)) :=
        List.filter_congr fun n2 hn2 => by
          rw [hg2 n2 (fun hh => hnr (hh ▸ hn2)) (fun hh => halr (hh ▸ hn2))]
      rw [hfold1, ih4, hrestfilter, hg3, List.filter_cons]
      by_cases hdpos : deleted > 0
      · rw [if_pos hdpos]
        have hp : decide (0 < ((db.getColl name).filter (oldDoc cutoff)).length) =
            true := by
          rw [← hcoll, ← hdel]
          simpa using hdpos
        rw [hp]
        simp only [if_true, List.length_cons]
        omega
      · rw [if_neg hdpos]
        have hp : decide (0 < ((db.getColl name).filter (oldDoc cutoff)).length) =
            false := by
          rw [← hcoll, ← hdel]
          simpa using hdpos
        rw [hp]
        simp only [Bool.false_eq_true, if_false]
        omega

theorem oldDoc_semantics (d : Record) (t cutoffT : Nat) (ht : t < 10 ^ 26)
    (hc : cutoffT < 10 ^ 26)
    (hl : Record.lookup d (pys "collected_at") = some (Value.str (isoformatTs t))) :
    oldDoc (isoformatTs cutoffT) d = decide (t < cutoffT) := by
  unfold oldDoc
  rw [hl]
  unfold isoformatTs
  dsimp only
  rw [lexLt_padDec, Nat.mod_eq_of_lt ht, Nat.mod_eq_of_lt hc]

/-- C9 (confirmed): `cleanup_old_data` deletes, from the fixed
collection list, exactly the documents whose recorded `collected_at`
timestamp is strictly older than `now - retention_days` (with
`retention_days = 0` every document with a past timestamp), returns
the total deletion count summed over the collections, logs one audit
entry per collection with a non-zero deletion count, and the
`days_to_keep` default is 2555, a multi-year value of 2500+ days. -/
theorem cleanupOldData_spec (db : DB) (now daysToKeep : Nat)
    (hnow : now < 10 ^ 26) :
    (cleanupOldData db now daysToKeep).2 =
      (collectionsToClean.map (fun name =>
        ((db.getColl name).filter
          (oldDoc (isoformatTs (now - daysToKeep * usPerDay)))).length)).sum ∧
    (∀ name ∈ collectionsToClean,
      (cleanupOldData db now daysToKeep).1.getColl name =
        (db.getColl name).filter
          (fun d => !oldDoc (isoformatTs (now - daysToKeep * usPerDay)) d)) ∧
    ((cleanupOldData db now daysToKeep).1.getColl auditLogs).length =
      (db.getColl auditLogs).length +
      (collectionsToClean.filter (fun name =>
        decide (0 < ((db.getColl name).filter
          (oldDoc (isoformatTs (now - daysToKeep * usPerDay)))).length))).length ∧
    (∀ d t, t < 10 ^ 26 →
      Record.lookup d (pys "collected_at") = some (Value.str (isoformatTs t)) →
      oldDoc (isoformatTs (now - daysToKeep * usPerDay)) d =
        decide (t < now - daysToKeep * usPerDay)) ∧
    2500 ≤ cleanupDefaultDays := by
  have hnd : collectionsToClean.Nodup := by decide
  have hal : auditLogs ∉ collectionsToClean := by decide
  obtain ⟨h1, h2, _h3, h4⟩ := cleanupFold
    (isoformatTs (now - daysToKeep * usPerDay)) now collectionsToClean db 0 hnd hal
  refine ⟨?_, h2, h4, ?_, by decide⟩
  · rw [cleanupOldData, h1]
    omega
  · intro d t ht hl
    exact oldDoc_semantics d t (now - daysToKeep * usPerDay) ht (by omega) hl

/-- C9 witness: `cleanupOldData_spec` on a store whose
`canvas_students` collection holds one past and one future record,
with `retention_days = 0`: the past record (and only it) is deleted,
the total is 1, and one audit entry is logged. -/
theorem cleanupOldData_spec_witness :
    (10 : Nat) < 10 ^ 26 ∧
    (cleanupOldData (DB.mk [(pys "canvas_students",
      [[(pys "collected_at", Value.str (isoformatTs 5))],
       [(pys "collected_at", Value.str (isoformatTs 20))]])]) 10 0).2 =
      (collectionsToClean.map (fun name =>
        (((DB.mk [(pys "canvas_students",
          [[(pys "collected_at", Value.str (isoformatTs 5))],
           [(pys "collected_at", Value.str (isoformatTs 20))]])]).getColl name).filter
          (oldDoc (isoformatTs (10 - 0 * usPerDay)))).length)).sum ∧
    (cleanupOldData (DB.mk [(pys "canvas_students",
      [[(pys "collected_at", Value.str (isoformatTs 5))],
       [(pys "collected_at", Value.str (isoformatTs 20))]])]) 10 0).2 = 1 ∧
    ((cleanupOldData (DB.mk [(pys "canvas_students",
      [[(pys "collected_at", Value.str (isoformatTs 5))],
       [(pys "collected_at", Value.str (isoformatTs 20))]])]) 10 0).1.getColl
      auditLogs).length = 1 ∧
    2500 ≤ cleanupDefaultDays :=
  ⟨by decide,
    (cleanupOldData_spec (DB.mk [(pys "canvas_students",
      [[(pys "collected_at", Value.str (isoformatTs 5))],
       [(pys "collected_at", Value.str (isoformatTs 20))]])]) 10 0 (by decide)).1,
    by decide, by decide,
    (cleanupOldData_spec (DB.mk [(pys "canvas_students",
      [[(pys "collected_at", Value.str (isoformatTs 5))],
       [(pys "collected_at", Value.str (isoformatTs 20))]])]) 10 0
      (by decide)).2.2.2.2⟩
